import Mathlib

/-!
Verification of the coordinate-encoding core of the odoo-vector-mcp
repository: value codecs and escaping for the three wire-format versions
(letter-prefixed, numeric table-caret-column, dynamic model-id-caret-field-id),
the field-encoding-map builder, record encoders and decoders, the schema
validation gate, the incremental-sync diff engine, the field-restriction
retry loop, and the schema loader.

Strings are modelled as `List Char`.  JavaScript `String.prototype.replace`
with a global single-character or two-character pattern is modelled by
`replace1` / `replace2` (left-to-right, non-overlapping, replacement text not
rescanned), matching the regular-expression semantics used by the source.
-/

/-- Strings of the embedded programs, as lists of characters. -/
abbrev Str := List Char

/-- Convert a Lean string literal to the embedded string type. -/
def S (s : String) : Str := s.data

/-- The backslash character. -/
def bsC : Char := '\\'

/-- `value.replace(/a/g, r)` for a single character `a`: replace every
occurrence of `a` by `r`, left to right, never rescanning `r`. -/
def replace1 (a : Char) (r : Str) : Str → Str
  | [] => []
  | c :: cs => if c = a then r ++ replace1 a r cs else c :: replace1 a r cs

/-- `value.replace(/ab/g, r)` for a two-character pattern `ab`: scan left to
right; on a match emit `r` and continue after both matched characters, never
rescanning `r`; otherwise advance one character. -/
def replace2 (a b : Char) (r : Str) : Str → Str
  | [] => []
  | [c] => [c]
  | c :: d :: cs =>
    if c = a ∧ d = b then r ++ replace2 a b r cs
    else c :: replace2 a b r (d :: cs)

/-- Whether the two-character pattern `ab` occurs (adjacently) in a string. -/
def hasPair (a b : Char) : Str → Bool
  | [] => false
  | [_] => false
  | c :: d :: cs => (c = a ∧ d = b : Bool) || hasPair a b (d :: cs)

/-- `escapeValue` of the letter-prefixed codec (schema-service encoder
service): backslash first, then the field delimiter, then the value
delimiter. -/
def escapeValueL (s : Str) : Str :=
  replace1 '*' [bsC, '*']
    (replace1 '|' [bsC, '|']
      (replace1 bsC [bsC, bsC] s))

/-- `unescapeValue` of the letter-prefixed codec: value delimiter first, then
field delimiter, then backslash last. -/
def unescapeValueL (s : Str) : Str :=
  replace2 bsC bsC [bsC]
    (replace2 bsC '|' ['|']
      (replace2 bsC '*' ['*'] s))

/-- `escapeValue` of the numeric table-caret-column codec: backslash first,
then field delimiter, value delimiter, and code delimiter. -/
def escapeValueN (s : Str) : Str :=
  replace1 '^' [bsC, '^']
    (replace1 '*' [bsC, '*']
      (replace1 '|' [bsC, '|']
        (replace1 bsC [bsC, bsC] s)))

/-- `unescapeValue` of the numeric codec: code delimiter first, then value
delimiter, field delimiter, and backslash last. -/
def unescapeValueN (s : Str) : Str :=
  replace2 bsC bsC [bsC]
    (replace2 bsC '|' ['|']
      (replace2 bsC '*' ['*']
        (replace2 bsC '^' ['^'] s)))

/-- One fully-escaped character: a backslash or a member of the special set
`sp` is preceded by a backslash; anything else stands alone. -/
def escChunk (sp : List Char) (c : Char) : Str :=
  if c = bsC ∨ c ∈ sp then [bsC, c] else [c]

/-- A string in which every backslash and every member of `sp` is
backslash-escaped. -/
def escStage (sp : List Char) : Str → Str
  | [] => []
  | c :: cs => escChunk sp c ++ escStage sp cs

/-- JavaScript whitespace accepted by `parseInt` / `parseFloat` / `trim`
(ASCII portion; exotic unicode spaces are not used by the repository data). -/
def isJsWS (c : Char) : Bool :=
  decide (c = ' ' ∨ c = '\t' ∨ c = '\n' ∨ c = '\r' ∨ c = '\x0B' ∨ c = '\x0C')

/-- `String.prototype.trim`: strip leading and trailing whitespace. -/
def jsTrim (s : Str) : Str :=
  ((s.dropWhile isJsWS).reverse.dropWhile isJsWS).reverse

/-- The decimal digit character for a value below ten. -/
def digitChar : Nat → Char
  | 0 => '0'
  | 1 => '1'
  | 2 => '2'
  | 3 => '3'
  | 4 => '4'
  | 5 => '5'
  | 6 => '6'
  | 7 => '7'
  | 8 => '8'
  | _ => '9'

/-- Decimal digit test. -/
def isDigitC (c : Char) : Bool := decide (48 ≤ c.toNat ∧ c.toNat ≤ 57)

/-- Numeric value of a digit character. -/
def digitVal (c : Char) : Nat := c.toNat - 48

/-- Digit rendering with explicit fuel (structural, so that concrete values
reduce in the kernel); the fuel never runs out when it exceeds the value. -/
def natReprAux : Nat → Nat → Str
  | 0, _ => []
  | fuel + 1, n =>
    if n < 10 then [digitChar n]
    else natReprAux fuel (n / 10) ++ [digitChar (n % 10)]

/-- Decimal rendering of a natural number, as JavaScript `String(n)`. -/
def natRepr (n : Nat) : Str := natReprAux (n + 1) n

/-- Decimal rendering of an integer, as JavaScript `String(n)`. -/
def intRepr (n : Int) : Str :=
  if n < 0 then '-' :: natRepr n.natAbs else natRepr n.toNat

/-- Value of a digit string read most-significant first. -/
def digitsVal (s : Str) : Nat :=
  s.foldl (fun a c => a * 10 + digitVal c) 0

/-- Leading-digit parse: the digits prefix of the string, or failure when the
string does not start with a digit. -/
def parseDigits (s : Str) : Option Nat :=
  if s.takeWhile isDigitC = [] then none else some (digitsVal (s.takeWhile isDigitC))

/-- Body of `parseInt` after whitespace stripping: optional sign, then a
mandatory digit prefix. -/
def parseJsIntAux : Str → Option Int
  | [] => none
  | c :: cs =>
    if c = '-' then (parseDigits cs).map (fun n => -(n : Int))
    else if c = '+' then (parseDigits cs).map (fun n => (n : Int))
    else (parseDigits (c :: cs)).map (fun n => (n : Int))

/-- JavaScript `parseInt(s, 10)`; `none` models `NaN`. -/
def parseJsInt (s : Str) : Option Int :=
  parseJsIntAux (s.dropWhile isJsWS)

/-- The fraction digits of a `parseFloat` input: the digits after a dot that
immediately follows the integer-digit prefix. -/
def floatFracPart (s : Str) : Str :=
  if (s.dropWhile isDigitC).head? = some '.' then
    (s.dropWhile isDigitC).tail.takeWhile isDigitC
  else []

/-- Body of `parseFloat` after sign handling: integer digits, then an optional
dot and fraction digits; at least one digit overall.  (Exponent notation is
not modelled; no rendered value in this development uses it.) -/
def parseFloatBody (s : Str) : Option ℚ :=
  if s.takeWhile isDigitC = [] ∧ floatFracPart s = [] then none
  else
    some ((digitsVal (s.takeWhile isDigitC) : ℚ) +
      (digitsVal (floatFracPart s) : ℚ) / (10 : ℚ) ^ (floatFracPart s).length)

/-- `parseFloat` after whitespace stripping: optional sign then body. -/
def parseJsFloatAux : Str → Option ℚ
  | [] => none
  | c :: cs =>
    if c = '-' then (parseFloatBody cs).map (fun q => -q)
    else if c = '+' then parseFloatBody cs
    else parseFloatBody (c :: cs)

/-- JavaScript `parseFloat(s)`; `none` models `NaN`. -/
def parseJsFloat (s : Str) : Option ℚ :=
  parseJsFloatAux (s.dropWhile isJsWS)

/-- Zero-pad a digit string on the left to a given width. -/
def padLeftZeros (k : Nat) (s : Str) : Str :=
  List.replicate (k - s.length) '0' ++ s

/-- Fixed-width fraction digits. -/
def renderFrac (k f : Nat) : Str := padLeftZeros k (natRepr f)

/-- Round to the nearest integer, ties toward the larger value, as in the
`toFixed` algorithm of ECMA-262 applied to a non-negative argument. -/
def roundHalfUp (x : ℚ) : Int := ⌊x + 1 / 2⌋

/-- JavaScript `q.toFixed(2)` on an exact rational model of the number:
render the sign, then the absolute value rounded to hundredths with exactly
two fraction digits. -/
def floatToFixed2 (q : ℚ) : Str :=
  (if q < 0 then ['-'] else []) ++
    natRepr ((roundHalfUp (|q| * 100)).toNat / 100) ++
    '.' :: renderFrac 2 ((roundHalfUp (|q| * 100)).toNat % 100)

/-- Factor counting with explicit fuel (structural for kernel reduction). -/
def countFacAux : Nat → Nat → Nat → Nat
  | 0, _, _ => 0
  | fuel + 1, p, n =>
    if 2 ≤ p ∧ 2 ≤ n ∧ n % p = 0 then countFacAux fuel p (n / p) + 1 else 0

/-- Number of times `p` divides `n` (for `p ≥ 2`). -/
def countFac (p n : Nat) : Nat := countFacAux n p n

/-- Number of decimal digits needed after the point for an exact finite
decimal rendering of a rational. -/
def decK (q : ℚ) : Nat := max (countFac 2 q.den) (countFac 5 q.den)

/-- Whether a rational is an exact finite decimal (denominator of the form
two-to-the-a times five-to-the-b); JavaScript doubles that the repository
handles print exactly in that case. -/
def decFinite (q : ℚ) : Bool :=
  q.den = 2 ^ countFac 2 q.den * 5 ^ countFac 5 q.den

/-- Scaled mantissa of the finite decimal rendering. -/
def decM (q : ℚ) : Int := q.num * (10 : Int) ^ decK q / (q.den : Int)

/-- JavaScript `String(x)` for a number modelled as an exact finite decimal
rational: sign, integer digits, and (when needed) the exact fraction
digits. -/
def decimalRepr (q : ℚ) : Str :=
  (if q < 0 then ['-'] else []) ++
    natRepr ((decM q).natAbs / 10 ^ decK q) ++
    (if decK q = 0 then []
     else '.' :: renderFrac (decK q) ((decM q).natAbs % 10 ^ decK q))

/-- Pipe-only escaping: the escaping the dynamic-protocol `encodeValue`
applies to text values (`String(value).replace(/\|/g, ...)` with a
backslash-pipe replacement). -/
def pipeEsc (s : Str) : Str := replace1 '|' [bsC, '|'] s

/-- JavaScript runtime values as the repository's encoders receive them.
`vNull` models both `null` and `undefined` (every embedded code path treats
them identically); `vNaN` models the `NaN` number; `vArr` models arrays
(relation tuples `[id, name]` and id lists).  Numbers are modelled exactly:
integer-valued numbers by `vInt`, other numbers by `vFloat` with an exact
rational value (exact for the finite decimals the system handles). -/
inductive OdooValue where
  | vNull
  | vNaN
  | vBool (b : Bool)
  | vInt (n : Int)
  | vFloat (q : ℚ)
  | vStr (s : Str)
  | vArr (elems : List OdooValue)

mutual

/-- JavaScript `String(value)` on the modelled values. -/
def jsString : OdooValue → Str
  | .vNull => S ("null")
  | .vNaN => S ("NaN")
  | .vBool b => if b then S ("true") else S ("false")
  | .vInt n => intRepr n
  | .vFloat q => decimalRepr q
  | .vStr s => s
  | .vArr es => jsStringList es

/-- JavaScript array-to-string: elements joined with commas. -/
def jsStringList : List OdooValue → Str
  | [] => []
  | [e] => jsString e
  | e :: es => jsString e ++ ',' :: jsStringList es

end

/-- Strict identity test `value === true`. -/
def isVBoolTrue : OdooValue → Bool
  | .vBool true => true
  | _ => false

/-- The test `value === false || value === null || value === undefined`. -/
def isNullOrFalse : OdooValue → Bool
  | .vBool false => true
  | .vNull => true
  | _ => false

/-- Strict identity test against `null`/`undefined`. -/
def isVNull : OdooValue → Bool
  | .vNull => true
  | _ => false

/-- JavaScript truthiness of the modelled values. -/
def truthy : OdooValue → Bool
  | .vNull => false
  | .vNaN => false
  | .vBool b => b
  | .vInt n => decide (n ≠ 0)
  | .vFloat q => decide (q ≠ 0)
  | .vStr s => decide (s ≠ [])
  | .vArr _ => true

/-- `encodeValue` of the dynamic model-id-caret-field-id protocol
(data-transformer service): boolean handled first by strict identity to
`true`; then false/null/undefined yield the empty string; relations, numbers
and text follow the source's switch, with only the pipe character escaped in
text values. -/
def encodeValue (value : OdooValue) (fieldType : Str) : Str :=
  if fieldType = S ("boolean") then
    (if isVBoolTrue value then S ("TRUE") else S ("FALSE"))
  else if isNullOrFalse value then []
  else if fieldType = S ("many2one") then
    (match value with
     | OdooValue.vArr [e, _] => jsString e
     | _ => [])
  else if fieldType = S ("many2many") ∨ fieldType = S ("one2many") then
    (match value with
     | OdooValue.vArr [] => S ("[]")
     | OdooValue.vArr es => '[' :: (jsStringList es ++ [']'])
     | _ => S ("[]"))
  else if fieldType = S ("integer") ∨ fieldType = S ("float") ∨
      fieldType = S ("monetary") then
    jsString value
  else if fieldType = S ("char") ∨ fieldType = S ("text") ∨
      fieldType = S ("html") then
    pipeEsc (jsString value)
  else if fieldType = S ("date") ∨ fieldType = S ("datetime") then
    jsString value
  else if fieldType = S ("selection") then
    jsString value
  else if fieldType = S ("binary") then
    (if truthy value then S ("[binary]") else [])
  else
    jsString value

/-- One entry of the field encoding map; `codePrefix` models the source's
`prefix` property. -/
structure FieldInfo where
  codePrefix : Str
  field_type : Str
  is_foreign_key : Bool
  target_model : Option Str
deriving DecidableEq

/-- JavaScript object insertion: overwrite in place when the key exists,
append otherwise (property order is first-assignment order). -/
def objInsert {α : Type} (k : Str) (v : α) : List (Str × α) → List (Str × α)
  | [] => [(k, v)]
  | (k2, v2) :: rest =>
    if k2 = k then (k, v) :: rest else (k2, v2) :: objInsert k v rest

/-- JavaScript object property lookup. -/
def objLookup {α : Type} (k : Str) : List (Str × α) → Option α
  | [] => none
  | (k2, v) :: rest => if k2 = k then some v else objLookup k rest

/-- One row of the dynamic schema registry as `parseSchemaRow` produces it. -/
structure OdooSchemaRow where
  model_id : Nat
  field_id : Nat
  field_name : Str
  field_label : Str
  field_type : Str
  model_name : Str
  primary_data_location : Str
  stored : Bool
  primary_model_id : Str
  primary_field_id : Str
  raw_encoded : Str
deriving DecidableEq

/-- JavaScript `s.replace(p, r)` with a plain (non-regex) pattern: replace
only the first occurrence. -/
def replaceFirst (p r : Str) : Str → Str
  | [] => []
  | c :: cs =>
    if p.isPrefixOf (c :: cs) then r ++ (c :: cs).drop p.length
    else c :: replaceFirst p r cs

/-- The loop body of `buildFieldEncodingMap`: one iteration of the for loop,
assigning this field's map entry (overwriting any earlier one). -/
def buildFieldStep (m : List (Str × FieldInfo)) (field : OdooSchemaRow) :
    List (Str × FieldInfo) :=
  if field.field_type = S ("many2one") then
    objInsert field.field_name
      ⟨field.primary_model_id ++ '^' :: field.primary_field_id,
        field.field_type, true,
        some (replaceFirst (S (".id")) [] field.primary_data_location)⟩ m
  else if field.field_type = S ("many2many") ∨
      field.field_type = S ("one2many") then
    objInsert field.field_name
      ⟨natRepr field.model_id ++ '^' :: natRepr field.field_id,
        field.field_type, true,
        some (replaceFirst (S (".id")) [] field.primary_data_location)⟩ m
  else
    objInsert field.field_name
      ⟨natRepr field.model_id ++ '^' :: natRepr field.field_id,
        field.field_type, false, none⟩ m

/-- `buildFieldEncodingMap` (data-transformer service): many2one fields get
the target model's identity coordinate `primary_model_id^primary_field_id`;
many2many and one2many fields get the owning model's own
`model_id^field_id`; all other fields get the owning model's own
coordinate. -/
def buildFieldEncodingMap (modelFields : List OdooSchemaRow) :
    List (Str × FieldInfo) :=
  modelFields.foldl buildFieldStep []

/-- The map entry `buildFieldStep` assigns for a row (the three-branch
right-hand side of the loop body). -/
def fieldInfoOfRow (field : OdooSchemaRow) : FieldInfo :=
  if field.field_type = S ("many2one") then
    ⟨field.primary_model_id ++ '^' :: field.primary_field_id,
      field.field_type, true,
      some (replaceFirst (S (".id")) [] field.primary_data_location)⟩
  else if field.field_type = S ("many2many") ∨
      field.field_type = S ("one2many") then
    ⟨natRepr field.model_id ++ '^' :: natRepr field.field_id,
      field.field_type, true,
      some (replaceFirst (S (".id")) [] field.primary_data_location)⟩
  else
    ⟨natRepr field.model_id ++ '^' :: natRepr field.field_id,
      field.field_type, false, none⟩

/-- A many2one row of the crm lead model pointing at the partner model's
identity coordinate. -/
def rowPartnerFK : OdooSchemaRow :=
  ⟨344, 6299, S ("partner_id"), S ("Customer"), S ("many2one"),
   S ("crm.lead"), S ("res.partner.id"), true, S ("201"), S ("1"), []⟩

/-- A many2one row of a second model pointing at the same partner model. -/
def rowArchFK : OdooSchemaRow :=
  ⟨500, 7100, S ("x_architect_id"), S ("Architect"), S ("many2one"),
   S ("x_project"), S ("res.partner.id"), true, S ("201"), S ("1"), []⟩

/-- The partner model's own id row: a native integer field at the identity
coordinate both foreign keys above reference. -/
def rowPartnerId : OdooSchemaRow :=
  ⟨201, 1, S ("id"), S ("ID"), S ("integer"), S ("res.partner"),
   S ("res.partner.id"), true, S ("201"), S ("1"), []⟩

/-- Join encoded segments with the field delimiter (`parts.join('|')`). -/
def joinPipe : List Str → Str
  | [] => []
  | [x] => x
  | x :: xs => x ++ '|' :: joinPipe xs

/-- The parts array built by the dynamic `encodeRecord` loop: one entry per
encoding-map entry, in map order, even when the value is missing. -/
def encodeRecordParts (record : Str → OdooValue) :
    List (Str × FieldInfo) → List Str
  | [] => []
  | e :: rest =>
    (e.2.codePrefix ++ '*' :: encodeValue (record e.1) e.2.field_type) ::
      encodeRecordParts record rest

/-- `encodeRecord` of the dynamic protocol: iterate the encoding map, encode
each field's value (including empty values), and join with pipes. -/
def encodeRecord (record : Str → OdooValue)
    (encodingMap : List (Str × FieldInfo)) : Str :=
  joinPipe (encodeRecordParts record encodingMap)

/-- Result of `validateSchemaDataAlignment`. -/
structure ValidationResult where
  valid : Bool
  matched_fields : List Str
  missing_in_schema : List Str
  missing_in_odoo : List Str
deriving DecidableEq

/-- `validateSchemaDataAlignment` (data-transformer service): fails when any
fetched field name has no schema row. -/
def validateSchemaDataAlignment (odooFields : List Str)
    (schemaFields : List OdooSchemaRow) : ValidationResult :=
  ⟨(odooFields.filter
      (fun f => !(schemaFields.any (fun r => r.field_name = f)))).isEmpty,
   odooFields.filter (fun f => schemaFields.any (fun r => r.field_name = f)),
   odooFields.filter (fun f => !(schemaFields.any (fun r => r.field_name = f))),
   (schemaFields.filter
      (fun r => !(odooFields.any (fun g => g = r.field_name)))).map
     (fun r => r.field_name)⟩

/-- `formatValue` of the numeric table-caret-column codec: null/undefined →
null; integers via `parseInt` then re-rendered; floats via `parseFloat` then
`toFixed(2)`; booleans by truthiness to lowercase literals; all other types
trimmed, empty → null, otherwise escaped. -/
def formatValueN (value : OdooValue) (ftype : Str) : Option Str :=
  if isVNull value then none
  else if ftype = S ("integer") then
    (parseJsInt (jsString value)).map (fun n => intRepr n)
  else if ftype = S ("float") then
    (parseJsFloat (jsString value)).map (fun q => floatToFixed2 q)
  else if ftype = S ("boolean") then
    some (if truthy value then S ("true") else S ("false"))
  else if jsTrim (jsString value) = [] then none
  else some (escapeValueN (jsTrim (jsString value)))

/-- `parseValue` of the numeric codec: integer and float parse with `NaN` on
malformed text, boolean compares against the lowercase literal, everything
else passes through. -/
def parseValueN (value : Str) (ftype : Str) : OdooValue :=
  if ftype = S ("integer") then
    (match parseJsInt value with
     | some n => OdooValue.vInt n
     | none => OdooValue.vNaN)
  else if ftype = S ("float") then
    (match parseJsFloat value with
     | some q => OdooValue.vFloat q
     | none => OdooValue.vNaN)
  else if ftype = S ("boolean") then
    OdooValue.vBool (value = S ("true"))
  else OdooValue.vStr value

/-- Modelled from the spec: the dynamic protocol's value decoder (the
`decodeRecord` helper is not under src, only its callers are).  Per the spec,
decoding unescapes with the numeric escape set in reverse order (caret, star,
pipe, backslash last) and then types the value: integer and float parse with
no fallback (`NaN` surfaced as-is), boolean compares against the literal the
paired encoder emits (the dynamic `encodeValue` emits uppercase `TRUE`), and
everything else passes through as the unescaped string. -/
def decodeValueDyn (raw : Str) (ftype : Str) : OdooValue :=
  if ftype = S ("integer") then
    (match parseJsInt (unescapeValueN raw) with
     | some n => OdooValue.vInt n
     | none => OdooValue.vNaN)
  else if ftype = S ("float") then
    (match parseJsFloat (unescapeValueN raw) with
     | some q => OdooValue.vFloat q
     | none => OdooValue.vNaN)
  else if ftype = S ("boolean") then
    OdooValue.vBool (unescapeValueN raw = S ("TRUE"))
  else OdooValue.vStr (unescapeValueN raw)

/-- `isValidRelation` (types module): `Array.isArray(v) && v.length === 2`. -/
def isValidRelation : OdooValue → Bool
  | .vArr [_, _] => true
  | _ => false

/-- `getRelationName`: the second tuple component, or the empty string. -/
def getRelName : OdooValue → OdooValue
  | .vArr [_, b] => b
  | _ => .vStr []

/-- `getRelationId`: the first tuple component, or `undefined`. -/
def getRelId : OdooValue → OdooValue
  | .vArr [a, _] => a
  | _ => .vNull

/-- Scan past the first closing angle bracket; `none` when there is none. -/
def splitGt : Str → Option Str
  | [] => none
  | c :: cs => if c = '>' then some cs else splitGt cs

/-- `description.replace(/<[^>]*>/g, ' ')` with explicit fuel (each match or
single character consumes at least one character, so the string's length is
enough fuel). -/
def stripTagsF : Nat → Str → Str
  | 0, s => s
  | fuel + 1, [] => []
  | fuel + 1, c :: cs =>
    if c = '<' then
      match splitGt cs with
      | some rest => ' ' :: stripTagsF fuel rest
      | none => c :: cs
    else c :: stripTagsF fuel cs

/-- HTML-tag removal of `cleanDescription`. -/
def stripTags (s : Str) : Str := stripTagsF s.length s

/-- Global plain-string replacement with explicit fuel (the pattern is
nonempty in every use, so length fuel suffices). -/
def replaceAllF : Nat → Str → Str → Str → Str
  | 0, _, _, s => s
  | _ + 1, _, _, [] => []
  | fuel + 1, p, r, c :: cs =>
    if p.isPrefixOf (c :: cs) then r ++ replaceAllF fuel p r ((c :: cs).drop p.length)
    else c :: replaceAllF fuel p r cs

/-- `s.replace(/pattern/g, r)` for a multi-character literal pattern. -/
def replaceAllStr (p r s : Str) : Str := replaceAllF s.length p r s

/-- `\s+` collapsing: every whitespace run becomes a single space. -/
def collapseWSAux : Bool → Str → Str
  | _, [] => []
  | prev, c :: cs =>
    if isJsWS c then
      (if prev then collapseWSAux true cs else ' ' :: collapseWSAux true cs)
    else c :: collapseWSAux false cs

/-- Whitespace-run collapsing used by `cleanDescription`. -/
def collapseWS (s : Str) : Str := collapseWSAux false s

/-- `cleanDescription` (numeric encoder service): non-string or falsy input
yields the empty string; otherwise strip tags, decode the five entities,
collapse whitespace and trim. -/
def cleanDescription (description : OdooValue) : Str :=
  match description with
  | .vStr s =>
    if s = [] then []
    else
      jsTrim (collapseWS
        (replaceAllStr (S ("&quot;")) (S ("\x22"))
          (replaceAllStr (S ("&gt;")) (S (">"))
            (replaceAllStr (S ("&lt;")) (S ("<"))
              (replaceAllStr (S ("&amp;")) (S ("&"))
                (replaceAllStr (S ("&nbsp;")) (S (" "))
                  (stripTags s)))))))
  | _ => []

/-- The early skip of the numeric encoder's `addField`:
`value === null || value === undefined || value === false || value === ''`. -/
def isAddSkip : OdooValue → Bool
  | .vNull => true
  | .vBool false => true
  | .vStr [] => true
  | _ => false

/-- `addField` of the numeric `encodeOpportunity`: skip unset values, look up
the column's type (defaulting to char), format, and emit
`table^column*formatted` when formatting succeeds.  The schema table is a
parameter supplying each coordinate's type, as `getSchemaByTableColumn`
does from the constants module. -/
def addFieldN (lookupType : Nat → Nat → Option Str)
    (tableNumber columnNumber : Nat) (value : OdooValue) : Option Str :=
  if isAddSkip value then none
  else
    match formatValueN value ((lookupType tableNumber columnNumber).getD (S ("char"))) with
    | none => none
    | some formatted =>
      some (natRepr tableNumber ++ '^' :: natRepr columnNumber ++ '*' :: formatted)

/-- The CRM lead record as the numeric encoder consumes it. -/
structure CrmLeadN where
  name : OdooValue
  id : OdooValue
  expected_revenue : OdooValue
  probability : OdooValue
  create_date : OdooValue
  write_date : OdooValue
  date_closed : OdooValue
  description : OdooValue
  city : OdooValue
  active : OdooValue
  is_won : OdooValue
  partner_id : OdooValue
  stage_id : OdooValue
  user_id : OdooValue
  team_id : OdooValue
  state_id : OdooValue
  lost_reason_id : OdooValue
  x_specification_id : OdooValue
  x_lead_source_id : OdooValue
  x_architect_id : OdooValue

/-- `encodeOpportunity` of the numeric table-caret-column protocol: the fixed
sequence of `addField` calls on the lead's fields (core fields, cleaned
description, foreign-key ids, then the resolved names of tables two to ten),
keeping only the segments `addField` emitted, joined with pipes. -/
def encodeOpportunityN (lookupType : Nat → Nat → Option Str)
    (lead : CrmLeadN) : Str :=
  joinPipe (List.filterMap id
    [addFieldN lookupType 1 1 lead.name,
     addFieldN lookupType 1 2 lead.id,
     addFieldN lookupType 1 10 lead.expected_revenue,
     addFieldN lookupType 1 11 lead.probability,
     addFieldN lookupType 1 20 lead.create_date,
     addFieldN lookupType 1 21 lead.write_date,
     addFieldN lookupType 1 22 lead.date_closed,
     addFieldN lookupType 1 25 (OdooValue.vStr (cleanDescription lead.description)),
     addFieldN lookupType 1 30 lead.city,
     addFieldN lookupType 1 40 lead.active,
     addFieldN lookupType 1 41 lead.is_won,
     addFieldN lookupType 1 90 (getRelId lead.partner_id),
     addFieldN lookupType 1 91 (getRelId lead.stage_id),
     addFieldN lookupType 1 92 (getRelId lead.user_id),
     addFieldN lookupType 1 93 (getRelId lead.team_id),
     addFieldN lookupType 1 94 (getRelId lead.state_id),
     addFieldN lookupType 1 95 (getRelId lead.lost_reason_id),
     addFieldN lookupType 1 96 (getRelId lead.x_specification_id),
     addFieldN lookupType 1 97 (getRelId lead.x_lead_source_id),
     addFieldN lookupType 1 98 (getRelId lead.x_architect_id),
     (if isValidRelation lead.partner_id then
        addFieldN lookupType 2 1 (getRelName lead.partner_id) else none),
     (if isValidRelation lead.stage_id then
        addFieldN lookupType 3 1 (getRelName lead.stage_id) else none),
     (if isValidRelation lead.user_id then
        addFieldN lookupType 4 1 (getRelName lead.user_id) else none),
     (if isValidRelation lead.team_id then
        addFieldN lookupType 5 1 (getRelName lead.team_id) else none),
     (if isValidRelation lead.state_id then
        addFieldN lookupType 6 1 (getRelName lead.state_id) else none),
     (if isValidRelation lead.lost_reason_id then
        addFieldN lookupType 7 1 (getRelName lead.lost_reason_id) else none),
     (if isValidRelation lead.x_specification_id then
        addFieldN lookupType 8 1 (getRelName lead.x_specification_id) else none),
     (if isValidRelation lead.x_lead_source_id then
        addFieldN lookupType 9 1 (getRelName lead.x_lead_source_id) else none),
     (if isValidRelation lead.x_architect_id then
        addFieldN lookupType 10 1 (getRelName lead.x_architect_id) else none)])

/-- A lead with every field unset. -/
def emptyLeadN : CrmLeadN :=
  ⟨.vNull, .vNull, .vNull, .vNull, .vNull, .vNull, .vNull, .vNull, .vNull,
   .vNull, .vNull, .vNull, .vNull, .vNull, .vNull, .vNull, .vNull, .vNull,
   .vNull, .vNull⟩

/-- A two-entry schema table: coordinate one-one is char (the name column)
and one-forty is boolean (the active column), as in the constants module. -/
def lookupCE (t c : Nat) : Option Str :=
  if t = 1 ∧ c = 1 then some (S ("char"))
  else if t = 1 ∧ c = 40 then some (S ("boolean")) else none

/-- A lead with a name and the boolean `active` explicitly false. -/
def leadCE : CrmLeadN :=
  { emptyLeadN with name := .vStr (S ("A")), active := .vBool false }

/-- `encodedString.split(delimiter)` (JavaScript split on a single
character: the empty string splits to one empty part). -/
def splitOnChar (d : Char) : Str → List Str
  | [] => [[]]
  | c :: cs =>
    if c = d then [] :: splitOnChar d cs
    else
      match splitOnChar d cs with
      | [] => [[c]]
      | a :: rest => (c :: a) :: rest

/-- `part.indexOf(d)` with the two `substring` calls around it: the text
before the first occurrence of `d` and the text after it, or none when `d`
does not occur. -/
def splitAtFirst (d : Char) : Str → Option (Str × Str)
  | [] => none
  | c :: cs =>
    if c = d then some ([], cs)
    else (splitAtFirst d cs).map (fun p => (c :: p.1, p.2))

/-- One decoded field of the letter-prefixed protocol's decode. -/
structure DecodedFieldL where
  code : Str
  value : Str
  table : Str
  field : Str
  ftype : Str
  parsedValue : OdooValue

/-- One loop iteration of the letter-prefixed decode: a part with no star
separator is skipped (`continue`); an unknown code is still emitted tagged
unknown with char typing; a known code is unescaped and parsed with the
schema's type (the letter protocol's `parseValue` switch is the same as the
numeric one, modelled by `parseValueN`).  The schema table is a parameter
supplying each code's table, field and type, as `SCHEMA_DEFINITIONS`
does. -/
def decodeLPart (sch : Str → Option (Str × Str × Str)) (part : Str) :
    Option DecodedFieldL :=
  match splitAtFirst '*' part with
  | none => none
  | some (code, rawValue) =>
    match sch code with
    | none =>
      some ⟨code, unescapeValueL rawValue, S ("unknown"), S ("unknown"),
        S ("char"), OdooValue.vStr (unescapeValueL rawValue)⟩
    | some (tbl, fld, ty) =>
      some ⟨code, unescapeValueL rawValue, tbl, fld, ty,
        parseValueN (unescapeValueL rawValue) ty⟩

/-- `decode` of the letter-prefixed protocol (the `fields` array): split on
pipes and run the loop body on each part. -/
def decodeL (sch : Str → Option (Str × Str × Str)) (encodedString : Str) :
    List DecodedFieldL :=
  (splitOnChar '|' encodedString).filterMap (decodeLPart sch)

/-- `TABLE_MAPPING` of the numeric protocol's constants module. -/
def tableMapping (t : Int) : Option Str :=
  if t = 1 then some (S ("crm.lead"))
  else if t = 2 then some (S ("res.partner"))
  else if t = 3 then some (S ("crm.stage"))
  else if t = 4 then some (S ("res.users"))
  else if t = 5 then some (S ("crm.team"))
  else if t = 6 then some (S ("res.country.state"))
  else if t = 7 then some (S ("crm.lost.reason"))
  else if t = 8 then some (S ("x_specification"))
  else if t = 9 then some (S ("x_lead_source"))
  else if t = 10 then some (S ("res.partner"))
  else none

/-- One decoded field of the numeric protocol's decode. -/
structure DecodedFieldN where
  code : Str
  table_number : Int
  column_number : Int
  value : Str
  table : Str
  field : Str
  ftype : Str
  parsedValue : OdooValue

/-- One loop iteration of the numeric decode: skip when there is no star
separator, no caret in the code, or either coordinate parses to NaN;
otherwise resolve against the schema table (a parameter, as
`getSchemaByTableColumn` supplies it), falling back to `TABLE_MAPPING` or
unknown for the table, unknown for the field, and char for the type. -/
def decodeNPart (sd : Int → Int → Option (Str × Str × Str)) (part : Str) :
    Option DecodedFieldN :=
  match splitAtFirst '*' part with
  | none => none
  | some (schemaCode, rawValue) =>
    match splitAtFirst '^' schemaCode with
    | none => none
    | some (tstr, cstr) =>
      match parseJsInt tstr, parseJsInt cstr with
      | some tn, some cn =>
        some ⟨schemaCode, tn, cn, unescapeValueN rawValue,
          ((sd tn cn).map (fun p => p.1)).getD
            ((tableMapping tn).getD (S ("unknown"))),
          ((sd tn cn).map (fun p => p.2.1)).getD (S ("unknown")),
          ((sd tn cn).map (fun p => p.2.2)).getD (S ("char")),
          parseValueN (unescapeValueN rawValue)
            (((sd tn cn).map (fun p => p.2.2)).getD (S ("char")))⟩
      | _, _ => none

/-- `decode` of the numeric protocol (the `fields` array): split on pipes
and run the loop body on each part. -/
def decodeN (sd : Int → Int → Option (Str × Str × Str)) (encodedString : Str) :
    List DecodedFieldN :=
  (splitOnChar '|' encodedString).filterMap (decodeNPart sd)

/-- The sync metadata persisted between runs (the SyncMetadata interface):
field order as the source object literal constructs it. -/
structure SyncMetadata where
  lastSync : Str
  totalFields : Nat
  schemaFileHash : Str
  fieldChecksums : List (Str × Str)
  version : Nat
deriving DecidableEq

/-- The change set `detectChanges` returns.  A deleted entry is the number
`parseInt` produced from a stored key: `some n` for a numeric key and `none`
for the NaN a non-numeric key would yield. -/
structure ChangeSet where
  added : List Int
  modified : List Int
  deleted : List (Option Int)
deriving DecidableEq

/-- `createSyncMetadata`: the impure timestamp (`new Date().toISOString()`)
and schema file hash (`generateSchemaFileHash`) enter as parameters; the
checksum Map is an association list with distinct keys (its size is its
length), written into the fieldChecksums object under `String(fieldId)`
keys in iteration order. -/
def createSyncMetadata (now : Str) (schemaFileHash : Str)
    (checksums : List (Int × Str)) : SyncMetadata :=
  ⟨now, checksums.length, schemaFileHash,
   checksums.foldl (fun m e => objInsert (intRepr e.1) e.2 m) [], 1⟩

/-- `detectChanges`: no previous metadata means every current field is
added; otherwise a current field whose `String(fieldId)` key is absent from
the previous checksums is added, one whose stored checksum differs is
modified, and a stored key whose `parseInt` is not among the current ids is
deleted (`Map.has(NaN)` is always false, so a non-numeric key is always
reported deleted). -/
def detectChanges (previous : Option SyncMetadata)
    (cur : List (Int × Str)) : ChangeSet :=
  match previous with
  | none => ⟨cur.map Prod.fst, [], []⟩
  | some prev =>
    ⟨(cur.filter (fun e =>
        (objLookup (intRepr e.1) prev.fieldChecksums).isNone)).map Prod.fst,
     (cur.filter (fun e =>
        match objLookup (intRepr e.1) prev.fieldChecksums with
        | some c => decide (c ≠ e.2)
        | none => false)).map Prod.fst,
     (prev.fieldChecksums.map Prod.fst).filterMap (fun k =>
        match parseJsInt k with
        | some n => if cur.any (fun e => e.1 = n) then none else some (some n)
        | none => some none)⟩

/-- JSON string-character escaping as `JSON.stringify` performs it on the
characters these metadata strings contain (backslash and quote; control
characters do not occur in timestamps, hex hashes or decimal keys). -/
def jsonEscChar (c : Char) : Str :=
  if c = bsC then [bsC, bsC] else if c = '\x22' then [bsC, '\x22'] else [c]

/-- JSON escaping of a whole string. -/
def jsonEscape (s : Str) : Str := s.foldr (fun c acc => jsonEscChar c ++ acc) []

/-- A JSON string literal. -/
def jsonQuote (s : Str) : Str := '\x22' :: (jsonEscape s ++ ['\x22'])

/-- The entry lines of the nested fieldChecksums object under
`JSON.stringify(metadata, null, 2)`: four-space indent, comma-newline
separators. -/
def jsonObjEntries : List (Str × Str) → Str
  | [] => []
  | [e] => S ("    ") ++ jsonQuote e.1 ++ S (": ") ++ jsonQuote e.2
  | e :: rest =>
    S ("    ") ++ jsonQuote e.1 ++ S (": ") ++ jsonQuote e.2 ++ S (",\n") ++
      jsonObjEntries rest

/-- The nested fieldChecksums object as `JSON.stringify(-, null, 2)` renders
it at depth one. -/
def jsonObj2 (entries : List (Str × Str)) : Str :=
  if entries = [] then S ("\x7b\x7d")
  else S ("\x7b\n") ++ jsonObjEntries entries ++ S ("\n  \x7d")

/-- The bytes `saveSyncMetadata` writes:
`JSON.stringify(metadata, null, 2)` over the five fields in the object
literal's property order. -/
def jsonOfMetadata (m : SyncMetadata) : Str :=
  S ("\x7b\n  \x22lastSync\x22: ") ++ jsonQuote m.lastSync ++
  S (",\n  \x22totalFields\x22: ") ++ natRepr m.totalFields ++
  S (",\n  \x22schemaFileHash\x22: ") ++ jsonQuote m.schemaFileHash ++
  S (",\n  \x22fieldChecksums\x22: ") ++ jsonObj2 m.fieldChecksums ++
  S (",\n  \x22version\x22: ") ++ natRepr m.version ++ S ("\n\x7d")

/-- The errors array `syncModelData` returns when validation fails: header
with the missing count, the first twenty missing names, a summary line when
more than twenty are missing, a blank line and a guidance line, with falsy
entries (empty strings) filtered out. -/
def syncValidationErrors (missing : List Str) : List Str :=
  ([S ("Schema-Data mismatch! ") ++ natRepr missing.length ++
      S (" Odoo fields not in schema:")] ++
   missing.take 20 ++
   [if missing.length > 20 then
      S ("... and ") ++ natRepr (missing.length - 20) ++ S (" more")
    else []] ++
   [[]] ++
   [S ("Please update schema first (sync schema), then retry data sync.")]
  ).filter (fun s => s ≠ [])

/-- The validation gate of `syncModelData`: when alignment fails the sync
aborts with the error array (a success-false result); otherwise it proceeds
to encoding (modelled as none). -/
def syncModelDataGate (odooFields : List Str)
    (schemaFields : List OdooSchemaRow) : Option (List Str) :=
  let validation := validateSchemaDataAlignment odooFields schemaFields
  if validation.valid then none
  else some (syncValidationErrors validation.missing_in_schema)

/-- Twenty-one field names none of which has a schema entry. -/
def fields21 : List Str :=
  [S ("f01"), S ("f02"), S ("f03"), S ("f04"), S ("f05"), S ("f06"),
   S ("f07"), S ("f08"), S ("f09"), S ("f10"), S ("f11"), S ("f12"),
   S ("f13"), S ("f14"), S ("f15"), S ("f16"), S ("f17"), S ("f18"),
   S ("f19"), S ("f20"), S ("f21")]

/-- `extractValue` (schema loader): the text after the first star, with one
trailing star stripped; a field with no star passes through whole. -/
def extractValue (encodedField : Str) : Str :=
  match splitAtFirst '*' encodedField with
  | none => encodedField
  | some (_, v) => if v.getLast? = some '*' then v.dropLast else v

/-- ASCII lowercasing of one character (`toLowerCase`). -/
def lowerChar (c : Char) : Char :=
  if 65 ≤ c.toNat ∧ c.toNat ≤ 90 then Char.ofNat (c.toNat + 32) else c

/-- `s.toLowerCase()` over the characters these rows contain. -/
def lowerStr (s : Str) : Str := s.map lowerChar

/-- `parseSchemaRow` (schema loader): split on pipes, reject rows with fewer
than nine columns, extract each column's value, reject rows whose ids do not
parse as numbers (ids are the non-negative numbers of the schema file), read
the stored flag by lowercase comparison with yes, and split the primary
reference at carets when it has one. -/
def parseSchemaRow (encodedRow : Str) : Option OdooSchemaRow :=
  let fields := splitOnChar '|' encodedRow
  if fields.length < 9 then none
  else
    match parseJsInt (extractValue (fields.getD 0 [])),
        parseJsInt (extractValue (fields.getD 1 [])) with
    | some mid, some fid =>
      let pr := extractValue (fields.getD 8 [])
      let pPair :=
        if pr ≠ [] ∧ '^' ∈ pr then
          ((splitOnChar '^' pr).getD 0 [], (splitOnChar '^' pr).getD 1 [])
        else (pr, [])
      some ⟨mid.toNat, fid.toNat,
        extractValue (fields.getD 2 []), extractValue (fields.getD 3 []),
        extractValue (fields.getD 4 []), extractValue (fields.getD 5 []),
        extractValue (fields.getD 6 []),
        decide (lowerStr (extractValue (fields.getD 7 [])) = S ("yes")),
        pPair.1, pPair.2, encodedRow⟩
    | _, _ => none

/-- The schema loader's module state: the cache variable plus the observable
filesystem at the resolved data path. -/
structure LoaderState where
  schemaCache : Option (List OdooSchemaRow)
  fileExists : Bool
  fileContent : Str

/-- `loadSchema`: cached result if present; an empty array (without filling
the cache) when the file does not exist; otherwise parse the nonblank
trimmed lines, cache and return them. -/
def loadSchema (st : LoaderState) : List OdooSchemaRow × LoaderState :=
  match st.schemaCache with
  | some cached => (cached, st)
  | none =>
    if st.fileExists then
      let lines := (splitOnChar '\n' st.fileContent).filter
        (fun line => (jsTrim line).length > 0)
      let schemas := lines.filterMap (fun line => parseSchemaRow (jsTrim line))
      (schemas, { st with schemaCache := some schemas })
    else ([], st)

/-- `getSchemasByModel`: load, then filter by model name. -/
def getSchemasByModel (modelName : Str) (st : LoaderState) :
    List OdooSchemaRow × LoaderState :=
  let r := loadSchema st
  (r.1.filter (fun s => s.model_name = modelName), r.2)

/-- `getSchemaByFieldId`: load, then find the first row with the id. -/
def getSchemaByFieldId (fieldId : Nat) (st : LoaderState) :
    Option OdooSchemaRow × LoaderState :=
  let r := loadSchema st
  (r.1.find? (fun s => s.field_id = fieldId), r.2)

/-- Modelled from the spec: the error classification the retry loop reads
off a thrown error via the error-parser module (which is not under src).
A singleton-style error names no field; a named restriction error carries
the parsed field names; anything else is not a field-restriction error. -/
inductive FetchErr where
  | singleton
  | named (fs : List Str)
  | other (m : Str)
deriving DecidableEq

/-- The retry loop's warning messages, by content. -/
inductive WarnTag where
  | singletonTesting
  | fieldCausesSingleton (f : Str)
  | fieldNonSingleton (f : Str)
  | removedField (f : Str)
deriving DecidableEq

/-- What `searchReadWithRetry` can throw: the original error re-thrown, the
all-fields-restricted error, the max-retries error, or the unreachable
loop-end error. -/
inductive Thrown where
  | orig (e : FetchErr)
  | allRestricted
  | maxRetriesExceeded
  | unexpectedEnd
deriving DecidableEq

/-- The successful result of `searchReadWithRetry`. -/
structure RetryOk (ρ : Type) where
  records : List ρ
  restrictedFields : List Str
  retryCount : Nat
  warnings : List WarnTag

/-- The individual field-testing loop of the singleton branch: each non-id
candidate is fetched as the pair id-and-candidate with limit two; a
singleton failure marks it problematic (with a warning), any other failure
or success marks it safe.  Returns the safe fields (id excluded), the
problematic fields, and the warnings, in encounter order. -/
def testFields {ρ : Type}
    (fetch : List Str → Option Nat → Except FetchErr (List ρ)) :
    List Str → List Str × List Str × List WarnTag
  | [] => ([], [], [])
  | f :: rest =>
    if f = S ("id") then testFields fetch rest
    else
      match fetch [S ("id"), f] (some 2) with
      | .ok _ =>
        (f :: (testFields fetch rest).1, (testFields fetch rest).2.1,
         (testFields fetch rest).2.2)
      | .error FetchErr.singleton =>
        ((testFields fetch rest).1, f :: (testFields fetch rest).2.1,
         WarnTag.fieldCausesSingleton f :: (testFields fetch rest).2.2)
      | .error _ =>
        (f :: (testFields fetch rest).1, (testFields fetch rest).2.1,
         WarnTag.fieldNonSingleton f :: (testFields fetch rest).2.2)

/-- The while loop of `searchReadWithRetry`, with explicit fuel (the loop
runs at most maxRetries plus two iterations, counting the final guard).
Arguments after the fuel: current fields, restricted fields, warnings,
retry count.  A successful fetch returns; a non-restriction error
re-throws; a singleton error with no field named runs the individual
testing loop and retries on the safe fields (id plus the safe candidates)
unless no candidate was problematic; a named restriction removes the named
fields that are present, throws when none remain or the budget is
exhausted, and retries. -/
def retryLoop {ρ : Type}
    (fetch : List Str → Option Nat → Except FetchErr (List ρ))
    (options : Option Nat) (maxRetries : Nat) :
    Nat → List Str → List Str → List WarnTag → Nat →
      Except Thrown (RetryOk ρ)
  | 0, _, _, _, _ => .error .unexpectedEnd
  | fuel + 1, currentFields, restricted, warnings, retryCount =>
    if retryCount > maxRetries then .error .unexpectedEnd
    else
      match fetch currentFields options with
      | .ok records => .ok ⟨records, restricted, retryCount, warnings⟩
      | .error (FetchErr.other m) => .error (.orig (.other m))
      | .error FetchErr.singleton =>
        if (testFields fetch currentFields).2.1 = [] then
          .error (.orig FetchErr.singleton)
        else
          retryLoop fetch options maxRetries fuel
            (S ("id") :: (testFields fetch currentFields).1)
            (restricted ++ (testFields fetch currentFields).2.1)
            (warnings ++ WarnTag.singletonTesting ::
              (testFields fetch currentFields).2.2)
            (retryCount + 1)
      | .error (FetchErr.named fs) =>
        if fs = [] then .error (.orig (.named fs))
        else if currentFields.filter (fun f => !(fs.contains f)) = [] then
          .error .allRestricted
        else if retryCount + 1 > maxRetries then .error .maxRetriesExceeded
        else
          retryLoop fetch options maxRetries fuel
            (currentFields.filter (fun f => !(fs.contains f)))
            (restricted ++ fs.filter (fun g => currentFields.contains g))
            (warnings ++ (fs.filter (fun g => currentFields.contains g)).map
              WarnTag.removedField)
            (retryCount + 1)

/-- `searchReadWithRetry`: run the retry loop from an empty restriction set
and retry count zero.  The fetch oracle stands for `this.searchRead` with
the given field list and limit. -/
def searchReadWithRetry {ρ : Type}
    (fetch : List Str → Option Nat → Except FetchErr (List ρ))
    (options : Option Nat) (fields : List Str) (maxRetries : Nat) :
    Except Thrown (RetryOk ρ) :=
  retryLoop fetch options maxRetries (maxRetries + 2) fields [] [] 0

/-- Round trip of one value through the numeric codec: `formatValue` produces
an encoded string whose unescape-then-parse recovers the value. -/
def numericRoundTrips (v : OdooValue) (t : Str) : Prop :=
  ∃ w, formatValueN v t = some w ∧ parseValueN (unescapeValueN w) t = v

/-- Round trip of one value through the dynamic protocol: decoding the value
produced by `encodeValue` yields the value back. -/
def dynamicRoundTrips (v : OdooValue) (t : Str) : Prop :=
  decodeValueDyn (encodeValue v t) t = v

-- ==========================================================================
-- Lemmas about replace1 / replace2 and the staged escape characterisation
-- ==========================================================================

theorem escChunk_esc {sp : List Char} {c : Char} (h : c = bsC ∨ c ∈ sp) :
    escChunk sp c = [bsC, c] := if_pos h

theorem escChunk_plain {sp : List Char} {c : Char} (h : ¬(c = bsC ∨ c ∈ sp)) :
    escChunk sp c = [c] := if_neg h

theorem replace1_append (a : Char) (r x y : Str) :
    replace1 a r (x ++ y) = replace1 a r x ++ replace1 a r y := by
  induction x with
  | nil => rfl
  | cons c cs ih =>
    by_cases h : c = a <;> simp [replace1, h, ih]

theorem replace2_match {a b : Char} {r : Str} {c d : Char} {cs : Str}
    (h : c = a ∧ d = b) :
    replace2 a b r (c :: d :: cs) = r ++ replace2 a b r cs := by
  simp [replace2, h]

theorem replace2_nomatch {a b : Char} {r : Str} {c d : Char} {cs : Str}
    (h : ¬(c = a ∧ d = b)) :
    replace2 a b r (c :: d :: cs) = c :: replace2 a b r (d :: cs) := by
  simp [replace2, h]

theorem replace2_cons_of_head_ne (a b : Char) (r : Str) (c : Char) (s : Str)
    (h : ¬(c = a ∧ s.head? = some b)) :
    replace2 a b r (c :: s) = c :: replace2 a b r s := by
  cases s with
  | nil => rfl
  | cons d cs =>
    have hcd : ¬(c = a ∧ d = b) := fun hcd => h ⟨hcd.1, by simp [hcd.2]⟩
    simp [replace2, hcd]

theorem replace1_base (s : Str) :
    replace1 bsC [bsC, bsC] s = escStage [] s := by
  induction s with
  | nil => rfl
  | cons c cs ih =>
    by_cases h : c = bsC <;>
      simp [replace1, escStage, escChunk, h, ih]

theorem replace1_chunk (a : Char) (sp : List Char) (ha : a ≠ bsC)
    (hsp : a ∉ sp) (c : Char) :
    replace1 a [bsC, a] (escChunk sp c) = escChunk (a :: sp) c := by
  by_cases h1 : c = bsC ∨ c ∈ sp
  · have hca : c ≠ a := by
      rcases h1 with h | h
      · exact fun hh => ha (hh ▸ h)
      · exact fun hh => hsp (hh ▸ h)
    have hba : bsC ≠ a := fun hh => ha hh.symm
    rw [escChunk_esc h1, escChunk_esc (by
      rcases h1 with h | h
      · exact Or.inl h
      · exact Or.inr (List.mem_cons_of_mem _ h))]
    simp [replace1, hba, hca]
  · push_neg at h1
    by_cases hca : c = a
    · rw [escChunk_plain (by push_neg; exact h1),
        escChunk_esc (Or.inr (by rw [hca]; exact List.mem_cons_self _ _))]
      simp [replace1, hca]
    · rw [escChunk_plain (by push_neg; exact h1),
        escChunk_plain (by
          push_neg
          refine ⟨h1.1, ?_⟩
          intro hmem
          rcases List.mem_cons.mp hmem with h | h
          · exact hca h
          · exact h1.2 h)]
      simp [replace1, hca]

theorem replace1_step (a : Char) (sp : List Char) (ha : a ≠ bsC)
    (hsp : a ∉ sp) (s : Str) :
    replace1 a [bsC, a] (escStage sp s) = escStage (a :: sp) s := by
  induction s with
  | nil => rfl
  | cons c cs ih =>
    rw [escStage, replace1_append, ih, replace1_chunk a sp ha hsp c, escStage]

/-- The head of a staged-escaped string is never a special character of the
stage. -/
theorem escStage_head_ne (sp : List Char) (d : Char) (hd : d ≠ bsC)
    (hmem : d ∈ sp) (s : Str) : (escStage sp s).head? ≠ some d := by
  cases s with
  | nil => simp [escStage]
  | cons c cs =>
    by_cases hc : c = bsC ∨ c ∈ sp
    · rw [escStage, escChunk_esc hc]
      simp
      exact fun hh => hd hh.symm
    · rw [escStage, escChunk_plain hc]
      simp
      intro hh
      push_neg at hc
      exact hc.2 (hh ▸ hmem)

theorem replace2_unesc_step (d : Char) (sp : List Char) (hd : d ≠ bsC)
    (hsp : d ∉ sp) (s : Str) :
    replace2 bsC d [d] (escStage (d :: sp) s) = escStage sp s := by
  induction s with
  | nil => rfl
  | cons c cs ih =>
    by_cases hc : c = d
    · rw [hc, escStage,
        escChunk_esc (Or.inr (List.mem_cons_self _ _)), List.cons_append,
        List.cons_append, List.nil_append, replace2_match ⟨rfl, rfl⟩, ih,
        escStage, escChunk_plain (by push_neg; exact ⟨hd, hsp⟩),
        List.cons_append, List.nil_append]
    · by_cases hbs : c = bsC
      · rw [hbs, escStage, escChunk_esc (Or.inl rfl), List.cons_append,
          List.cons_append, List.nil_append]
        rw [replace2_nomatch (fun hh => hd hh.2.symm)]
        rw [replace2_cons_of_head_ne _ _ _ _ _ (fun hh =>
          escStage_head_ne (d :: sp) d hd (List.mem_cons_self _ _) cs hh.2)]
        rw [ih, escStage, escChunk_esc (Or.inl rfl), List.cons_append,
          List.cons_append, List.nil_append]
      · by_cases hmem : c ∈ sp
        · rw [escStage, escChunk_esc (Or.inr (List.mem_cons_of_mem _ hmem)),
            List.cons_append, List.cons_append, List.nil_append]
          rw [replace2_nomatch (fun hh => hc hh.2)]
          rw [replace2_cons_of_head_ne _ _ _ _ _ (fun hh => hbs hh.1), ih,
            escStage, escChunk_esc (Or.inr hmem), List.cons_append,
            List.cons_append, List.nil_append]
        · have hne : ¬(c = bsC ∨ c ∈ d :: sp) := by
            push_neg
            refine ⟨hbs, ?_⟩
            intro hh
            rcases List.mem_cons.mp hh with h | h
            · exact hc h
            · exact hmem h
          rw [escStage, escChunk_plain hne, List.cons_append, List.nil_append]
          rw [replace2_cons_of_head_ne _ _ _ _ _ (fun hh => hbs hh.1), ih,
            escStage, escChunk_plain (by push_neg; exact ⟨hbs, hmem⟩),
            List.cons_append, List.nil_append]

theorem replace2_unesc_base (s : Str) :
    replace2 bsC bsC [bsC] (escStage [] s) = s := by
  induction s with
  | nil => rfl
  | cons c cs ih =>
    by_cases hc : c = bsC
    · rw [hc, escStage, escChunk_esc (Or.inl rfl), List.cons_append,
        List.cons_append, List.nil_append, replace2_match ⟨rfl, rfl⟩, ih]
      rfl
    · rw [escStage, escChunk_plain (by simp [hc]), List.cons_append,
        List.nil_append,
        replace2_cons_of_head_ne _ _ _ _ _ (fun hh => hc hh.1), ih]

theorem escapeValueL_eq_stage (s : Str) :
    escapeValueL s = escStage ['*', '|'] s := by
  unfold escapeValueL
  rw [replace1_base, replace1_step '|' [] (by decide) (by simp),
    replace1_step '*' ['|'] (by decide) (by decide)]

theorem escapeValueN_eq_stage (s : Str) :
    escapeValueN s = escStage ['^', '*', '|'] s := by
  unfold escapeValueN
  rw [replace1_base, replace1_step '|' [] (by decide) (by simp),
    replace1_step '*' ['|'] (by decide) (by decide),
    replace1_step '^' ['*', '|'] (by decide) (by decide)]

theorem unescape_escape_L (s : Str) : unescapeValueL (escapeValueL s) = s := by
  rw [escapeValueL_eq_stage]
  unfold unescapeValueL
  rw [replace2_unesc_step '*' ['|'] (by decide) (by decide),
    replace2_unesc_step '|' [] (by decide) (by simp),
    replace2_unesc_base]

theorem unescape_escape_N (s : Str) : unescapeValueN (escapeValueN s) = s := by
  rw [escapeValueN_eq_stage]
  unfold unescapeValueN
  rw [replace2_unesc_step '^' ['*', '|'] (by decide) (by decide),
    replace2_unesc_step '*' ['|'] (by decide) (by decide),
    replace2_unesc_step '|' [] (by decide) (by simp),
    replace2_unesc_base]

/-- C2: for every string, unescaping the escaping of the string returns
exactly the string, for the letter-prefixed codec (escape set backslash, pipe,
star; backslash escaped first, unescaped last) and for the numeric codec
(escape set backslash, pipe, star, caret); in particular a value containing
the two-character sequence backslash-pipe round-trips to exactly that
sequence. -/
theorem C2_escape_roundtrip (s : Str) :
    unescapeValueL (escapeValueL s) = s ∧ unescapeValueN (escapeValueN s) = s :=
  ⟨unescape_escape_L s, unescape_escape_N s⟩

-- ==========================================================================
-- Lemmas about hasPair and the pipe-only escaping of the dynamic protocol
-- ==========================================================================

theorem hasPair_cons (a b c : Char) (t : Str) :
    hasPair a b (c :: t) = ((c = a ∧ t.head? = some b : Bool) || hasPair a b t) := by
  cases t with
  | nil => simp [hasPair]
  | cons d cs => simp [hasPair]

theorem replace2_id_of_no_pair (a b : Char) (r : Str) :
    ∀ s : Str, hasPair a b s = false → replace2 a b r s = s
  | [], _ => rfl
  | [c], _ => rfl
  | c :: d :: cs, h => by
    rw [hasPair] at h
    simp only [Bool.or_eq_false_iff, decide_eq_false_iff_not] at h
    rw [replace2_nomatch h.1, replace2_id_of_no_pair a b r (d :: cs) h.2]

theorem hasPair_false_of_not_mem (a b : Char) :
    ∀ s : Str, a ∉ s → hasPair a b s = false
  | [], _ => rfl
  | [c], _ => rfl
  | c :: d :: cs, h => by
    rw [hasPair]
    simp only [Bool.or_eq_false_iff, decide_eq_false_iff_not]
    constructor
    · intro hh
      exact h (hh.1 ▸ List.mem_cons_self _ _)
    · exact hasPair_false_of_not_mem a b (d :: cs) (fun hm => h (List.mem_cons_of_mem _ hm))

theorem pipeEsc_head_ne (s : Str) : (pipeEsc s).head? ≠ some '|' := by
  cases s with
  | nil => simp [pipeEsc, replace1]
  | cons c cs =>
    by_cases h : c = '|'
    · have hrep : pipeEsc (c :: cs) = bsC :: '|' :: pipeEsc cs := by
        simp [pipeEsc, replace1, h]
      rw [hrep]
      simp only [List.head?_cons, ne_eq, Option.some.injEq]
      decide
    · have hrep : pipeEsc (c :: cs) = c :: pipeEsc cs := by
        simp [pipeEsc, replace1, h]
      rw [hrep]
      simp only [List.head?_cons, ne_eq, Option.some.injEq]
      exact h

theorem pipeUnesc_pipeEsc : ∀ s : Str, replace2 bsC '|' ['|'] (pipeEsc s) = s
  | [] => rfl
  | c :: cs => by
    by_cases h : c = '|'
    · have : pipeEsc (c :: cs) = bsC :: '|' :: pipeEsc cs := by
        simp [pipeEsc, replace1, h]
      rw [this, replace2_match ⟨rfl, rfl⟩, pipeUnesc_pipeEsc cs, h]
      rfl
    · have hrep : pipeEsc (c :: cs) = c :: pipeEsc cs := by
        simp [pipeEsc, replace1, h]
      rw [hrep, replace2_cons_of_head_ne _ _ _ _ _ (by
        intro hh
        exact pipeEsc_head_ne cs hh.2), pipeUnesc_pipeEsc cs]

theorem hasPair_pipeEsc (x : Char) (hx1 : x ≠ '|') (hx2 : x ≠ bsC) :
    ∀ s : Str, hasPair bsC x s = false → hasPair bsC x (pipeEsc s) = false
  | [], _ => rfl
  | c :: cs, h => by
    rw [hasPair_cons] at h
    simp only [Bool.or_eq_false_iff, decide_eq_false_iff_not] at h
    by_cases hc : c = '|'
    · have hrep : pipeEsc (c :: cs) = bsC :: '|' :: pipeEsc cs := by
        simp [pipeEsc, replace1, hc]
      rw [hrep, hasPair_cons, hasPair_cons]
      simp only [Bool.or_eq_false_iff, decide_eq_false_iff_not, List.head?_cons]
      refine ⟨fun hh => ?_, fun hh => ?_, hasPair_pipeEsc x hx1 hx2 cs h.2⟩
      · have hv : ('|' : Char) = x := Option.some.inj hh.2
        exact hx1 hv.symm
      · exact absurd hh.1 (by decide)
    · have hrep : pipeEsc (c :: cs) = c :: pipeEsc cs := by
        simp [pipeEsc, replace1, hc]
      rw [hrep, hasPair_cons]
      simp only [Bool.or_eq_false_iff, decide_eq_false_iff_not]
      refine ⟨fun hh => ?_, hasPair_pipeEsc x hx1 hx2 cs h.2⟩
      rcases hh with ⟨hcb, hh2⟩
      cases cs with
      | nil => simp [pipeEsc, replace1] at hh2
      | cons d ds =>
        by_cases hd : d = '|'
        · have hrep2 : pipeEsc (d :: ds) = bsC :: '|' :: pipeEsc ds := by
            simp [pipeEsc, replace1, hd]
          rw [hrep2] at hh2
          have hv : bsC = x := Option.some.inj (by simpa using hh2)
          exact hx2 hv.symm
        · have hrep2 : pipeEsc (d :: ds) = d :: pipeEsc ds := by
            simp [pipeEsc, replace1, hd]
          rw [hrep2] at hh2
          have hv : d = x := Option.some.inj (by simpa using hh2)
          exact h.1 ⟨hcb, by simp [hv]⟩

/-- Decoding the pipe-only-escaped text of the dynamic protocol with the
four-pattern unescape order of the numeric codec recovers the original string
provided the original contains no backslash immediately followed by a
backslash, star, or caret. -/
theorem unescapeN_pipeEsc (s : Str)
    (h1 : hasPair bsC bsC s = false)
    (h2 : hasPair bsC '*' s = false)
    (h3 : hasPair bsC '^' s = false) :
    unescapeValueN (pipeEsc s) = s := by
  unfold unescapeValueN
  rw [replace2_id_of_no_pair _ _ _ _ (hasPair_pipeEsc '^' (by decide) (by decide) s h3),
    replace2_id_of_no_pair _ _ _ _ (hasPair_pipeEsc '*' (by decide) (by decide) s h2),
    pipeUnesc_pipeEsc s,
    replace2_id_of_no_pair _ _ _ _ h1]

/-- A string without backslashes is untouched by the numeric unescaping. -/
theorem unescapeN_of_no_bs (s : Str) (h : bsC ∉ s) : unescapeValueN s = s := by
  unfold unescapeValueN
  rw [replace2_id_of_no_pair _ _ _ _ (hasPair_false_of_not_mem _ _ _ h),
    replace2_id_of_no_pair _ _ _ _ (hasPair_false_of_not_mem _ _ _ h),
    replace2_id_of_no_pair _ _ _ _ (hasPair_false_of_not_mem _ _ _ h),
    replace2_id_of_no_pair _ _ _ _ (hasPair_false_of_not_mem _ _ _ h)]

-- ==========================================================================
-- Digit and numeral lemmas
-- ==========================================================================

theorem natReprAux_stable : ∀ (f1 f2 n : Nat), n < f1 → n < f2 →
    natReprAux f1 n = natReprAux f2 n := by
  intro f1
  induction f1 with
  | zero => intro f2 n h1 _; omega
  | succ m ih =>
    intro f2 n h1 h2
    cases f2 with
    | zero => omega
    | succ m2 =>
      show natReprAux (m + 1) n = natReprAux (m2 + 1) n
      unfold natReprAux
      by_cases hn : n < 10
      · rw [if_pos hn, if_pos hn]
      · rw [if_neg hn, if_neg hn,
          ih m2 (n / 10) (by omega) (by
            have := Nat.div_lt_self (show 0 < n by omega) (show 1 < 10 by omega)
            omega)]

theorem natRepr_unfold (n : Nat) :
    natRepr n = if n < 10 then [digitChar n]
      else natRepr (n / 10) ++ [digitChar (n % 10)] := by
  unfold natRepr
  by_cases hn : n < 10
  · rw [if_pos hn]
    unfold natReprAux
    rw [if_pos hn]
  · rw [if_neg hn]
    show natReprAux (n + 1) n = _
    unfold natReprAux
    rw [if_neg hn,
      natReprAux_stable n (n / 10 + 1) (n / 10)
        (by
          have := Nat.div_lt_self (show 0 < n by omega) (show 1 < 10 by omega)
          omega)
        (by omega)]
    rfl

theorem digitVal_digitChar {n : Nat} (h : n < 10) : digitVal (digitChar n) = n := by
  interval_cases n <;> decide

theorem isDigitC_digitChar {n : Nat} (h : n < 10) : isDigitC (digitChar n) = true := by
  interval_cases n <;> decide

theorem natRepr_digits (n : Nat) : ∀ c ∈ natRepr n, isDigitC c = true := by
  rw [natRepr_unfold]
  split
  · next h =>
    intro c hc
    simp only [List.mem_singleton] at hc
    subst hc
    exact isDigitC_digitChar h
  · next h =>
    intro c hc
    rcases List.mem_append.mp hc with h1 | h2
    · exact natRepr_digits (n / 10) c h1
    · simp only [List.mem_singleton] at h2
      subst h2
      exact isDigitC_digitChar (Nat.mod_lt _ (by omega))
termination_by n
decreasing_by exact Nat.div_lt_self (by omega) (by omega)

theorem natRepr_ne_nil (n : Nat) : natRepr n ≠ [] := by
  rw [natRepr_unfold]
  split
  · simp
  · simp

theorem digitsVal_append_singleton (xs : Str) (c : Char) :
    digitsVal (xs ++ [c]) = 10 * digitsVal xs + digitVal c := by
  unfold digitsVal
  rw [List.foldl_append]
  simp [Nat.mul_comm]

theorem digitsVal_natRepr (n : Nat) : digitsVal (natRepr n) = n := by
  rw [natRepr_unfold]
  split
  · next h =>
    show digitsVal [digitChar n] = n
    simp [digitsVal, digitVal_digitChar h]
  · next h =>
    rw [digitsVal_append_singleton, digitsVal_natRepr (n / 10),
      digitVal_digitChar (Nat.mod_lt _ (by omega))]
    omega
termination_by n
decreasing_by exact Nat.div_lt_self (by omega) (by omega)

theorem length_natRepr_le {n k : Nat} (hk : 1 ≤ k) (h : n < 10 ^ k) :
    (natRepr n).length ≤ k := by
  rw [natRepr_unfold]
  split
  · next hlt => simpa using hk
  · next hlt =>
    have hk2 : 2 ≤ k := by
      by_contra hcon
      have : k = 1 := by omega
      subst this
      simp at h
      omega
    have hdiv : n / 10 < 10 ^ (k - 1) := by
      rw [Nat.div_lt_iff_lt_mul (by omega)]
      calc n < 10 ^ k := h
        _ = 10 ^ (k - 1) * 10 := by
          rw [← Nat.pow_succ]
          congr 1
          omega
    have ih := length_natRepr_le (n := n / 10) (k := k - 1) (by omega) hdiv
    simp only [List.length_append, List.length_singleton]
    omega
termination_by n
decreasing_by exact Nat.div_lt_self (by omega) (by omega)

theorem digit_not_special {c : Char} (h : isDigitC c = true) :
    isJsWS c = false ∧ c ≠ '-' ∧ c ≠ '+' ∧ c ≠ '.' ∧ c ≠ bsC ∧ c ≠ '|' ∧
      c ≠ '*' ∧ c ≠ '^' := by
  have hb := of_decide_eq_true h
  refine ⟨?_, ?_, ?_, ?_, ?_, ?_, ?_, ?_⟩
  · unfold isJsWS
    apply decide_eq_false
    rintro (hh | hh | hh | hh | hh | hh) <;> (subst hh; revert hb; decide)
  all_goals intro hh; subst hh; revert hb; decide

-- ==========================================================================
-- takeWhile / dropWhile helpers
-- ==========================================================================

theorem takeWhile_all {p : Char → Bool} :
    ∀ {s : Str}, (∀ c ∈ s, p c = true) → s.takeWhile p = s
  | [], _ => rfl
  | c :: cs, h => by
    rw [List.takeWhile_cons, if_pos (h c (List.mem_cons_self _ _)),
      takeWhile_all (fun x hx => h x (List.mem_cons_of_mem _ hx))]

theorem dropWhile_all {p : Char → Bool} :
    ∀ {s : Str}, (∀ c ∈ s, p c = true) → s.dropWhile p = []
  | [], _ => rfl
  | c :: cs, h => by
    rw [List.dropWhile_cons, if_pos (h c (List.mem_cons_self _ _))]
    exact dropWhile_all (fun x hx => h x (List.mem_cons_of_mem _ hx))

theorem dropWhile_head_false {p : Char → Bool} {c : Char} (cs : Str)
    (h : p c = false) : (c :: cs).dropWhile p = c :: cs := by
  rw [List.dropWhile_cons, if_neg (by simp [h])]

theorem takeWhile_append_stop {p : Char → Bool} {y : Char} (ys : Str)
    (hy : p y = false) :
    ∀ {xs : Str}, (∀ c ∈ xs, p c = true) →
      (xs ++ y :: ys).takeWhile p = xs
  | [], _ => by
    simp only [List.nil_append]
    rw [List.takeWhile_cons, if_neg (by simp [hy])]
  | c :: cs, h => by
    simp only [List.cons_append]
    rw [List.takeWhile_cons, if_pos (h c (List.mem_cons_self _ _)),
      takeWhile_append_stop ys hy (fun x hx => h x (List.mem_cons_of_mem _ hx))]

theorem dropWhile_append_stop {p : Char → Bool} {y : Char} (ys : Str)
    (hy : p y = false) :
    ∀ {xs : Str}, (∀ c ∈ xs, p c = true) →
      (xs ++ y :: ys).dropWhile p = y :: ys
  | [], _ => by
    simp only [List.nil_append]
    exact dropWhile_head_false ys hy
  | c :: cs, h => by
    simp only [List.cons_append]
    rw [List.dropWhile_cons, if_pos (h c (List.mem_cons_self _ _))]
    exact dropWhile_append_stop ys hy (fun x hx => h x (List.mem_cons_of_mem _ hx))

-- ==========================================================================
-- parseInt / parseFloat round trips for rendered numerals
-- ==========================================================================

theorem parseDigits_of_digits {s : Str} (hd : ∀ c ∈ s, isDigitC c = true)
    (hne : s ≠ []) : parseDigits s = some (digitsVal s) := by
  unfold parseDigits
  rw [takeWhile_all hd, if_neg hne]

theorem dropWhile_ws_digits_head {c : Char} {cs : Str} (h : isDigitC c = true) :
    (c :: cs).dropWhile isJsWS = c :: cs :=
  dropWhile_head_false cs (digit_not_special h).1

theorem parseJsInt_natRepr (n : Nat) : parseJsInt (natRepr n) = some (n : Int) := by
  obtain ⟨c, cs, hcons⟩ := List.exists_cons_of_ne_nil (natRepr_ne_nil n)
  have hdig : ∀ x ∈ natRepr n, isDigitC x = true := natRepr_digits n
  have hc : isDigitC c = true := hdig c (by rw [hcons]; exact List.mem_cons_self _ _)
  unfold parseJsInt
  rw [hcons, dropWhile_ws_digits_head hc]
  simp only [parseJsIntAux]
  rw [if_neg (digit_not_special hc).2.1, if_neg (digit_not_special hc).2.2.1,
    ← hcons, parseDigits_of_digits hdig (natRepr_ne_nil n), digitsVal_natRepr]
  rfl

theorem parseJsInt_intRepr (n : Int) : parseJsInt (intRepr n) = some n := by
  unfold intRepr
  by_cases h : n < 0
  · rw [if_pos h]
    unfold parseJsInt
    rw [dropWhile_head_false _ (by decide)]
    have hpd : parseDigits (natRepr n.natAbs) = some (digitsVal (natRepr n.natAbs)) :=
      parseDigits_of_digits (natRepr_digits _) (natRepr_ne_nil _)
    simp [parseJsIntAux, hpd, digitsVal_natRepr]
    simp [abs_of_neg h]
  · rw [if_neg h, parseJsInt_natRepr]
    congr 1
    omega

theorem digitsVal_cons_zero (s : Str) : digitsVal ('0' :: s) = digitsVal s := by
  unfold digitsVal
  rw [List.foldl_cons]
  congr 1

theorem digitsVal_replicate_zero (j : Nat) (s : Str) :
    digitsVal (List.replicate j '0' ++ s) = digitsVal s := by
  induction j with
  | zero => simp
  | succ m ih =>
    rw [List.replicate_succ, List.cons_append, digitsVal_cons_zero, ih]

theorem renderFrac_digits (k f : Nat) : ∀ c ∈ renderFrac k f, isDigitC c = true := by
  intro c hc
  unfold renderFrac padLeftZeros at hc
  rcases List.mem_append.mp hc with h | h
  · rw [List.eq_of_mem_replicate h]
    decide
  · exact natRepr_digits f c h

theorem length_renderFrac {k f : Nat} (hk : 1 ≤ k) (hf : f < 10 ^ k) :
    (renderFrac k f).length = k := by
  unfold renderFrac padLeftZeros
  have := length_natRepr_le hk hf
  simp only [List.length_append, List.length_replicate]
  omega

theorem digitsVal_renderFrac (k f : Nat) : digitsVal (renderFrac k f) = f := by
  unfold renderFrac padLeftZeros
  rw [digitsVal_replicate_zero, digitsVal_natRepr]

theorem parseFloatBody_frac {xs rf : Str} (hxs : ∀ c ∈ xs, isDigitC c = true)
    (hne : xs ≠ []) (hrf : ∀ c ∈ rf, isDigitC c = true) :
    parseFloatBody (xs ++ '.' :: rf) =
      some ((digitsVal xs : ℚ) + (digitsVal rf : ℚ) / (10 : ℚ) ^ rf.length) := by
  have ht : (xs ++ '.' :: rf).takeWhile isDigitC = xs :=
    takeWhile_append_stop rf (by decide) hxs
  have hd : (xs ++ '.' :: rf).dropWhile isDigitC = '.' :: rf :=
    dropWhile_append_stop rf (by decide) hxs
  have hfrac : floatFracPart (xs ++ '.' :: rf) = rf := by
    unfold floatFracPart
    rw [hd]
    simp [takeWhile_all hrf]
  unfold parseFloatBody
  rw [ht, hfrac, if_neg (by intro hh; exact hne hh.1)]

theorem parseFloatBody_int {xs : Str} (hxs : ∀ c ∈ xs, isDigitC c = true)
    (hne : xs ≠ []) : parseFloatBody xs = some ((digitsVal xs : ℚ)) := by
  have ht : xs.takeWhile isDigitC = xs := takeWhile_all hxs
  have hd : xs.dropWhile isDigitC = [] := dropWhile_all hxs
  have hfrac : floatFracPart xs = [] := by
    unfold floatFracPart
    rw [hd]
    simp
  unfold parseFloatBody
  rw [ht, hfrac, if_neg (by intro hh; exact hne hh.1)]
  simp [digitsVal]

theorem parseJsFloat_digit_head {s : Str} {c : Char} {cs : Str}
    (hcons : s = c :: cs) (hc : isDigitC c = true) :
    parseJsFloat s = parseFloatBody s := by
  subst hcons
  unfold parseJsFloat
  rw [dropWhile_head_false cs (digit_not_special hc).1]
  simp only [parseJsFloatAux]
  rw [if_neg (digit_not_special hc).2.1, if_neg (digit_not_special hc).2.2.1]

theorem parseJsFloat_neg_cons (s : Str) :
    parseJsFloat ('-' :: s) = (parseFloatBody s).map (fun q => -q) := by
  unfold parseJsFloat
  rw [dropWhile_head_false s (by decide)]
  simp only [parseJsFloatAux]
  rw [if_pos trivial]

theorem parseJsFloat_render {neg : Bool} {ip k f : Nat} (hk : 1 ≤ k)
    (hf : f < 10 ^ k) :
    parseJsFloat ((if neg then ['-'] else []) ++ natRepr ip ++ '.' :: renderFrac k f)
      = some ((if neg then (-1 : ℚ) else 1) * ((ip : ℚ) + (f : ℚ) / (10 : ℚ) ^ k)) := by
  have hbody : parseFloatBody (natRepr ip ++ '.' :: renderFrac k f)
      = some ((ip : ℚ) + (f : ℚ) / (10 : ℚ) ^ k) := by
    rw [parseFloatBody_frac (natRepr_digits ip) (natRepr_ne_nil ip) (renderFrac_digits k f),
      digitsVal_natRepr, digitsVal_renderFrac, length_renderFrac hk hf]
  cases neg with
  | true =>
    show parseJsFloat ('-' :: (natRepr ip ++ '.' :: renderFrac k f)) = _
    rw [parseJsFloat_neg_cons, hbody]
    simp
  | false =>
    show parseJsFloat (natRepr ip ++ '.' :: renderFrac k f) = _
    obtain ⟨c, cs, hcons⟩ := List.exists_cons_of_ne_nil (natRepr_ne_nil ip)
    have hc : isDigitC c = true :=
      natRepr_digits ip c (by rw [hcons]; exact List.mem_cons_self _ _)
    rw [parseJsFloat_digit_head (by rw [hcons, List.cons_append]) hc, hbody]
    simp

theorem parseJsFloat_render_int {neg : Bool} {ip : Nat} :
    parseJsFloat ((if neg then ['-'] else []) ++ natRepr ip)
      = some ((if neg then (-1 : ℚ) else 1) * (ip : ℚ)) := by
  have hbody : parseFloatBody (natRepr ip) = some ((ip : ℚ)) := by
    rw [parseFloatBody_int (natRepr_digits ip) (natRepr_ne_nil ip), digitsVal_natRepr]
  cases neg with
  | true =>
    show parseJsFloat ('-' :: natRepr ip) = _
    rw [parseJsFloat_neg_cons, hbody]
    simp
  | false =>
    show parseJsFloat (natRepr ip) = _
    obtain ⟨c, cs, hcons⟩ := List.exists_cons_of_ne_nil (natRepr_ne_nil ip)
    have hc : isDigitC c = true :=
      natRepr_digits ip c (by rw [hcons]; exact List.mem_cons_self _ _)
    rw [parseJsFloat_digit_head hcons hc, hbody]
    simp

-- ==========================================================================
-- Exact rational round trips for the rendered decimal forms
-- ==========================================================================

theorem floor_half_eq_zero : ⌊(1 : ℚ) / 2⌋ = 0 := by
  rw [Int.floor_eq_iff]
  norm_num

theorem roundHalfUp_intCast (z : ℤ) : roundHalfUp ((z : ℚ)) = z := by
  unfold roundHalfUp
  rw [add_comm, Int.floor_add_int, floor_half_eq_zero, zero_add]

theorem nat_div_mod_cast_q (n d : Nat) (hd : 0 < d) :
    ((n / d : Nat) : ℚ) + ((n % d : Nat) : ℚ) / (d : ℚ) = (n : ℚ) / (d : ℚ) := by
  have hdq : (d : ℚ) ≠ 0 := by positivity
  rw [eq_div_iff hdq, add_mul, div_mul_cancel₀ _ hdq]
  have hnm : d * (n / d) + n % d = n := Nat.div_add_mod n d
  calc ((n / d : Nat) : ℚ) * d + ((n % d : Nat) : ℚ)
      = ((d * (n / d) + n % d : Nat) : ℚ) := by push_cast; ring
    _ = (n : ℚ) := by rw [hnm]

theorem parseJsFloat_floatToFixed2 (q : ℚ) (h : (q * 100).den = 1) :
    parseJsFloat (floatToFixed2 q) = some q := by
  have hz : (((q * 100).num : ℤ) : ℚ) = q * 100 := by
    conv_rhs => rw [← Rat.num_div_den (q * 100)]
    rw [h]
    simp
  have habs : |q| * 100 = ((|(q * 100).num| : ℤ) : ℚ) := by
    push_cast
    rw [hz, abs_mul]
    norm_num
  have hround : roundHalfUp (|q| * 100) = |(q * 100).num| := by
    rw [habs, roundHalfUp_intCast]
  have hcast : ((|(q * 100).num|.toNat : ℕ) : ℚ) = ((|(q * 100).num| : ℤ) : ℚ) := by
    rw [← Int.cast_natCast, Int.toNat_of_nonneg (abs_nonneg _)]
  have hn : (((roundHalfUp (|q| * 100)).toNat : ℕ) : ℚ) = |q| * 100 := by
    rw [hround, hcast, ← habs]
  have hval : (((roundHalfUp (|q| * 100)).toNat / 100 : Nat) : ℚ) +
      (((roundHalfUp (|q| * 100)).toNat % 100 : Nat) : ℚ) / (10 : ℚ) ^ 2 = |q| := by
    have h100 : ((10 : ℚ) ^ 2) = ((100 : Nat) : ℚ) := by norm_num
    rw [h100, nat_div_mod_cast_q _ 100 (by omega), hn]
    norm_num
  have hflt : (roundHalfUp (|q| * 100)).toNat % 100 < 10 ^ 2 := by
    have hlt := Nat.mod_lt ((roundHalfUp (|q| * 100)).toNat) (show 0 < 100 by norm_num)
    simpa using hlt
  unfold floatToFixed2
  by_cases hq : q < 0
  · rw [if_pos hq,
      show (['-'] : Str) = (if (true : Bool) then ['-'] else []) from rfl,
      @parseJsFloat_render true ((roundHalfUp (|q| * 100)).toNat / 100) 2
        ((roundHalfUp (|q| * 100)).toNat % 100) (by norm_num) hflt, hval,
      abs_of_neg hq]
    norm_num
  · rw [if_neg hq,
      show (([] : Str) ++ natRepr ((roundHalfUp (|q| * 100)).toNat / 100)) =
        ((if (false : Bool) then ['-'] else []) ++
          natRepr ((roundHalfUp (|q| * 100)).toNat / 100)) from rfl,
      @parseJsFloat_render false ((roundHalfUp (|q| * 100)).toNat / 100) 2
        ((roundHalfUp (|q| * 100)).toNat % 100) (by norm_num) hflt, hval,
      abs_of_nonneg (not_lt.mp hq)]
    norm_num

theorem decM_mul_den (q : ℚ) (h : decFinite q = true) :
    decM q * (q.den : ℤ) = q.num * (10 : ℤ) ^ decK q := by
  have hden : q.den = 2 ^ countFac 2 q.den * 5 ^ countFac 5 q.den :=
    of_decide_eq_true h
  have hdvdN : q.den ∣ 10 ^ decK q := by
    conv_lhs => rw [hden]
    have h10 : (10 : ℕ) ^ decK q = 2 ^ decK q * 5 ^ decK q := by
      rw [← Nat.mul_pow]
    rw [h10]
    exact Nat.mul_dvd_mul (Nat.pow_dvd_pow 2 (le_max_left _ _))
      (Nat.pow_dvd_pow 5 (le_max_right _ _))
  have hdvdZ : (q.den : ℤ) ∣ (10 : ℤ) ^ decK q := by
    have : ((q.den : ℤ)) ∣ ((10 ^ decK q : ℕ) : ℤ) := Int.natCast_dvd_natCast.mpr hdvdN
    simpa using this
  unfold decM
  exact Int.ediv_mul_cancel (Dvd.dvd.mul_left hdvdZ q.num)

theorem decM_cast_q (q : ℚ) (h : decFinite q = true) :
    ((decM q : ℤ) : ℚ) = q * (10 : ℚ) ^ decK q := by
  have hden0 : ((q.den : ℕ) : ℚ) ≠ 0 := by
    exact_mod_cast q.den_nz
  have h1 : ((q.num : ℚ)) / ((q.den : ℚ)) = q := Rat.num_div_den q
  have hnd : q * ((q.den : ℕ) : ℚ) = (q.num : ℚ) := by
    nth_rewrite 1 [← h1]
    rw [div_mul_cancel₀ _ hden0]
  have hM := decM_mul_den q h
  have hcast : ((decM q : ℤ) : ℚ) * ((q.den : ℕ) : ℚ) =
      (q.num : ℚ) * (10 : ℚ) ^ decK q := by
    exact_mod_cast congrArg (fun z : ℤ => (z : ℚ)) hM
  have hgoal : ((decM q : ℤ) : ℚ) * ((q.den : ℕ) : ℚ) =
      (q * (10 : ℚ) ^ decK q) * ((q.den : ℕ) : ℚ) := by
    rw [hcast]
    calc (q.num : ℚ) * (10 : ℚ) ^ decK q
        = (q * ((q.den : ℕ) : ℚ)) * (10 : ℚ) ^ decK q := by rw [hnd]
      _ = (q * (10 : ℚ) ^ decK q) * ((q.den : ℕ) : ℚ) := by ring
  exact mul_right_cancel₀ hden0 hgoal

theorem decM_natAbs_cast (q : ℚ) (h : decFinite q = true) :
    (((decM q).natAbs : ℕ) : ℚ) = |q| * (10 : ℚ) ^ decK q := by
  rw [Int.cast_natAbs, Int.cast_abs, decM_cast_q q h, abs_mul]
  congr 1
  rw [abs_of_nonneg]
  positivity

theorem parseJsFloat_decimalRepr (q : ℚ) (h : decFinite q = true) :
    parseJsFloat (decimalRepr q) = some q := by
  have habs := decM_natAbs_cast q h
  unfold decimalRepr
  by_cases hk : decK q = 0
  · rw [if_pos hk, List.append_nil, hk, pow_zero, Nat.div_one]
    rw [hk, pow_zero, mul_one] at habs
    by_cases hq : q < 0
    · rw [if_pos hq,
        show (['-'] : Str) = (if (true : Bool) then ['-'] else []) from rfl,
        @parseJsFloat_render_int true ((decM q).natAbs), habs, abs_of_neg hq]
      norm_num
    · rw [if_neg hq,
        show (([] : Str) ++ natRepr ((decM q).natAbs)) =
          ((if (false : Bool) then ['-'] else []) ++ natRepr ((decM q).natAbs)) from rfl,
        @parseJsFloat_render_int false ((decM q).natAbs), habs,
        abs_of_nonneg (not_lt.mp hq)]
      norm_num
  · have hk1 : 1 ≤ decK q := by omega
    have hflt : (decM q).natAbs % 10 ^ decK q < 10 ^ decK q :=
      Nat.mod_lt _ (by positivity)
    have h10 : ((10 : ℚ)) ^ decK q = ((10 ^ decK q : ℕ) : ℚ) := by push_cast; ring
    have hpow0 : ((10 : ℚ)) ^ decK q ≠ 0 := by positivity
    have hval : (((decM q).natAbs / 10 ^ decK q : ℕ) : ℚ) +
        (((decM q).natAbs % 10 ^ decK q : ℕ) : ℚ) / (10 : ℚ) ^ decK q = |q| := by
      rw [h10, nat_div_mod_cast_q _ _ (by positivity), ← h10, habs,
        mul_div_assoc, div_self hpow0, mul_one]
    rw [if_neg hk]
    by_cases hq : q < 0
    · rw [if_pos hq,
        show (['-'] : Str) = (if (true : Bool) then ['-'] else []) from rfl,
        @parseJsFloat_render true ((decM q).natAbs / 10 ^ decK q) (decK q)
          ((decM q).natAbs % 10 ^ decK q) hk1 hflt, hval, abs_of_neg hq]
      norm_num
    · rw [if_neg hq,
        show (([] : Str) ++ natRepr ((decM q).natAbs / 10 ^ decK q)) =
          ((if (false : Bool) then ['-'] else []) ++
            natRepr ((decM q).natAbs / 10 ^ decK q)) from rfl,
        @parseJsFloat_render false ((decM q).natAbs / 10 ^ decK q) (decK q)
          ((decM q).natAbs % 10 ^ decK q) hk1 hflt, hval,
        abs_of_nonneg (not_lt.mp hq)]
      norm_num

-- ==========================================================================
-- Backslash-freeness of rendered numerals and general toFixed parsing
-- ==========================================================================

theorem intRepr_no_bs (n : Int) : bsC ∉ intRepr n := by
  unfold intRepr
  intro hmem
  by_cases h : n < 0
  · rw [if_pos h] at hmem
    rcases List.mem_cons.mp hmem with h1 | h1
    · exact absurd h1 (by decide)
    · exact (digit_not_special (natRepr_digits _ _ h1)).2.2.2.2.1 rfl
  · rw [if_neg h] at hmem
    exact (digit_not_special (natRepr_digits _ _ hmem)).2.2.2.2.1 rfl

theorem renderFrac_no_bs (k f : Nat) : bsC ∉ renderFrac k f := by
  intro hmem
  exact (digit_not_special (renderFrac_digits k f _ hmem)).2.2.2.2.1 rfl

theorem floatToFixed2_no_bs (q : ℚ) : bsC ∉ floatToFixed2 q := by
  unfold floatToFixed2
  intro hmem
  rcases List.mem_append.mp hmem with h1 | h1
  · rcases List.mem_append.mp h1 with h2 | h2
    · by_cases hq : q < 0
      · rw [if_pos hq] at h2
        rcases List.mem_singleton.mp h2 with h3
        exact absurd h3 (by decide)
      · rw [if_neg hq] at h2
        simp at h2
    · exact (digit_not_special (natRepr_digits _ _ h2)).2.2.2.2.1 rfl
  · rcases List.mem_cons.mp h1 with h2 | h2
    · exact absurd h2 (by decide)
    · exact renderFrac_no_bs _ _ h2

theorem rat_mul_den_eq_num (q : ℚ) : q * ((q.den : ℕ) : ℚ) = (q.num : ℚ) := by
  have hden0 : ((q.den : ℕ) : ℚ) ≠ 0 := by
    exact_mod_cast q.den_nz
  have h1 : ((q.num : ℚ)) / ((q.den : ℚ)) = q := Rat.num_div_den q
  nth_rewrite 1 [← h1]
  rw [div_mul_cancel₀ _ hden0]

theorem den_mul_hundred (q : ℚ) (h : q.den ∣ 100) : (q * 100).den = 1 := by
  obtain ⟨c, hc⟩ := h
  have hcast : ((100 : ℚ)) = ((q.den : ℕ) : ℚ) * ((c : ℕ) : ℚ) := by
    exact_mod_cast congrArg (fun n : ℕ => (n : ℚ)) hc
  have hval : q * 100 = ((q.num * (c : ℤ) : ℤ) : ℚ) := by
    rw [hcast, ← mul_assoc, rat_mul_den_eq_num]
    push_cast
    ring
  rw [hval, Rat.den_intCast]

/-- What `parseFloat` recovers from any `toFixed(2)` rendering: the rounded
hundredths, with the sign. -/
theorem parseJsFloat_floatToFixed2_gen (q : ℚ) :
    parseJsFloat (floatToFixed2 q) =
      some ((if q < 0 then (-1 : ℚ) else 1) *
        (((roundHalfUp (|q| * 100)).toNat : ℚ) / 100)) := by
  have hflt : (roundHalfUp (|q| * 100)).toNat % 100 < 10 ^ 2 := by
    have hlt := Nat.mod_lt ((roundHalfUp (|q| * 100)).toNat) (show 0 < 100 by norm_num)
    simpa using hlt
  have hval : (((roundHalfUp (|q| * 100)).toNat / 100 : Nat) : ℚ) +
      (((roundHalfUp (|q| * 100)).toNat % 100 : Nat) : ℚ) / (10 : ℚ) ^ 2 =
      (((roundHalfUp (|q| * 100)).toNat : ℚ) / 100) := by
    have h100 : ((10 : ℚ) ^ 2) = ((100 : Nat) : ℚ) := by norm_num
    rw [h100, nat_div_mod_cast_q _ 100 (by omega)]
    norm_num
  unfold floatToFixed2
  by_cases hq : q < 0
  · rw [if_pos hq,
      show (['-'] : Str) = (if (true : Bool) then ['-'] else []) from rfl,
      @parseJsFloat_render true ((roundHalfUp (|q| * 100)).toNat / 100) 2
        ((roundHalfUp (|q| * 100)).toNat % 100) (by norm_num) hflt, hval,
      if_pos hq]
    norm_num
  · rw [if_neg hq,
      show (([] : Str) ++ natRepr ((roundHalfUp (|q| * 100)).toNat / 100)) =
        ((if (false : Bool) then ['-'] else []) ++
          natRepr ((roundHalfUp (|q| * 100)).toNat / 100)) from rfl,
      @parseJsFloat_render false ((roundHalfUp (|q| * 100)).toNat / 100) 2
        ((roundHalfUp (|q| * 100)).toNat % 100) (by norm_num) hflt, hval,
      if_neg hq]
    norm_num

-- ==========================================================================
-- Per-type round-trip lemmas for the numeric codec and the dynamic protocol
-- ==========================================================================

theorem numericRT_bool (b : Bool) : numericRoundTrips (.vBool b) (S ("boolean")) := by
  cases b
  · exact ⟨S ("false"), rfl, rfl⟩
  · exact ⟨S ("true"), rfl, rfl⟩

theorem numericRT_int (n : Int) : numericRoundTrips (.vInt n) (S ("integer")) := by
  refine ⟨intRepr n, ?_, ?_⟩
  · unfold formatValueN
    rw [if_neg (by simp [isVNull]), if_pos rfl]
    have hjs : jsString (OdooValue.vInt n) = intRepr n := by simp [jsString]
    rw [hjs, parseJsInt_intRepr]
    rfl
  · rw [unescapeN_of_no_bs _ (intRepr_no_bs n)]
    unfold parseValueN
    rw [if_pos rfl, parseJsInt_intRepr]

theorem numericRT_float (q : ℚ) (h1 : decFinite q = true) (h2 : q.den ∣ 100) :
    numericRoundTrips (.vFloat q) (S ("float")) := by
  refine ⟨floatToFixed2 q, ?_, ?_⟩
  · unfold formatValueN
    rw [if_neg (by simp [isVNull]), if_neg (by decide), if_pos rfl]
    have hjs : jsString (OdooValue.vFloat q) = decimalRepr q := by simp [jsString]
    rw [hjs, parseJsFloat_decimalRepr q h1]
    rfl
  · rw [unescapeN_of_no_bs _ (floatToFixed2_no_bs q)]
    unfold parseValueN
    rw [if_neg (by decide), if_pos rfl,
      parseJsFloat_floatToFixed2 q (den_mul_hundred q h2)]

theorem numericRT_string (t s : Str) (h1 : t ≠ S ("integer"))
    (h2 : t ≠ S ("float")) (h3 : t ≠ S ("boolean")) (hs : jsTrim s = s)
    (hne : s ≠ []) : numericRoundTrips (.vStr s) t := by
  refine ⟨escapeValueN s, ?_, ?_⟩
  · unfold formatValueN
    have hjs : jsString (OdooValue.vStr s) = s := by simp [jsString]
    rw [if_neg (by simp [isVNull]), if_neg h1, if_neg h2, if_neg h3, hjs, hs,
      if_neg hne]
  · rw [unescape_escape_N]
    unfold parseValueN
    rw [if_neg h1, if_neg h2, if_neg h3]

theorem dynamicRT_bool (b : Bool) : dynamicRoundTrips (.vBool b) (S ("boolean")) := by
  cases b <;> rfl

theorem dynamicRT_int (n : Int) : dynamicRoundTrips (.vInt n) (S ("integer")) := by
  have henc : encodeValue (.vInt n) (S ("integer")) = intRepr n := by
    unfold encodeValue
    rw [if_neg (by decide), if_neg (by simp [isNullOrFalse]), if_neg (by decide),
      if_neg (by decide), if_pos (Or.inl rfl)]
    simp [jsString]
  unfold dynamicRoundTrips
  rw [henc]
  unfold decodeValueDyn
  rw [if_pos rfl, unescapeN_of_no_bs _ (intRepr_no_bs n), parseJsInt_intRepr]

theorem dynamicRT_string (t s : Str) (hb : t ≠ S ("boolean"))
    (hm1 : t ≠ S ("many2one"))
    (hm2 : ¬(t = S ("many2many") ∨ t = S ("one2many")))
    (hnum : ¬(t = S ("integer") ∨ t = S ("float") ∨ t = S ("monetary")))
    (htext : t = S ("char") ∨ t = S ("text") ∨ t = S ("html"))
    (p1 : hasPair bsC bsC s = false) (p2 : hasPair bsC '*' s = false)
    (p3 : hasPair bsC '^' s = false) :
    dynamicRoundTrips (.vStr s) t := by
  have henc : encodeValue (.vStr s) t = pipeEsc s := by
    unfold encodeValue
    have hjs : jsString (OdooValue.vStr s) = s := by simp [jsString]
    rw [if_neg hb, if_neg (by simp [isNullOrFalse]), if_neg hm1, if_neg hm2,
      if_neg hnum, if_pos htext, hjs]
  unfold dynamicRoundTrips
  rw [henc]
  unfold decodeValueDyn
  rw [if_neg (fun h => hnum (Or.inl h)),
    if_neg (fun h => hnum (Or.inr (Or.inl h))), if_neg hb,
    unescapeN_pipeEsc s p1 p2 p3]

/-- C3 counterexample: the round-trip claim fails as stated.  For the numeric
codec the empty string is not encodable at all (`formatValue` yields null) and
the float minus one eighth is re-read as minus thirteen hundredths (rounded by
`toFixed(2)`); for the dynamic protocol the text backslash-star decodes to a
bare star (the encoder escapes only pipes while the spec's unescape order also
strips backslash-star), and a many2one tuple decodes to the id string, not the
tuple. -/
theorem C3_counterexample :
    ¬ numericRoundTrips (OdooValue.vStr []) (S ("char")) ∧
    ¬ numericRoundTrips
        (OdooValue.vFloat (⟨-1, 8, by decide, by decide⟩ : ℚ)) (S ("float")) ∧
    ¬ dynamicRoundTrips (OdooValue.vStr [bsC, '*']) (S ("char")) ∧
    ¬ dynamicRoundTrips
        (OdooValue.vArr [OdooValue.vInt 201, OdooValue.vStr (S ("Acme"))])
        (S ("many2one")) := by
  refine ⟨?_, ?_, ?_, ?_⟩
  · rintro ⟨w, hw, _⟩
    rw [show formatValueN (OdooValue.vStr []) (S ("char")) = none from rfl] at hw
    exact Option.noConfusion hw
  · rintro ⟨w, hw, hp⟩
    have hq8 : ((⟨-1, 8, by decide, by decide⟩ : ℚ)) = -(1 / 8 : ℚ) := by
      rw [Rat.mk'_eq_divInt, Rat.divInt_eq_div]
      norm_num
    have hfin : decFinite (⟨-1, 8, by decide, by decide⟩ : ℚ) = true := by decide
    have hfmt : formatValueN
        (OdooValue.vFloat (⟨-1, 8, by decide, by decide⟩ : ℚ)) (S ("float")) =
        some (floatToFixed2 (⟨-1, 8, by decide, by decide⟩ : ℚ)) := by
      unfold formatValueN
      rw [if_neg (by simp [isVNull]), if_neg (by decide), if_pos rfl]
      have hjs : jsString (OdooValue.vFloat (⟨-1, 8, by decide, by decide⟩ : ℚ)) =
          decimalRepr (⟨-1, 8, by decide, by decide⟩ : ℚ) := by simp [jsString]
      rw [hjs, parseJsFloat_decimalRepr _ hfin]
      rfl
    rw [hfmt] at hw
    have hweq : w = floatToFixed2 (⟨-1, 8, by decide, by decide⟩ : ℚ) :=
      (Option.some.inj hw).symm
    subst hweq
    rw [unescapeN_of_no_bs _ (floatToFixed2_no_bs _)] at hp
    have habs : |(⟨-1, 8, by decide, by decide⟩ : ℚ)| * 100 = 25 / 2 := by
      rw [hq8, abs_of_neg (by norm_num)]
      norm_num
    have hround : roundHalfUp (|(⟨-1, 8, by decide, by decide⟩ : ℚ)| * 100) = 13 := by
      rw [habs]
      unfold roundHalfUp
      rw [show (25 : ℚ) / 2 + 1 / 2 = ((13 : ℤ) : ℚ) by norm_num, Int.floor_intCast]
    have hparse := parseJsFloat_floatToFixed2_gen (⟨-1, 8, by decide, by decide⟩ : ℚ)
    rw [hround, if_pos (by rw [hq8]; norm_num)] at hparse
    unfold parseValueN at hp
    rw [if_neg (by decide), if_pos rfl, hparse] at hp
    have hqeq : (-1 : ℚ) * (((13 : ℤ).toNat : ℚ) / 100) =
        (⟨-1, 8, by decide, by decide⟩ : ℚ) := by
      injection hp
    rw [show (13 : ℤ).toNat = (13 : ℕ) from rfl, hq8] at hqeq
    norm_num at hqeq
  · intro h
    unfold dynamicRoundTrips at h
    rw [show decodeValueDyn (encodeValue (OdooValue.vStr [bsC, '*']) (S ("char")))
        (S ("char")) = OdooValue.vStr ['*'] from rfl] at h
    injection h with h2
    exact absurd h2 (by decide)
  · intro h
    unfold dynamicRoundTrips at h
    rw [show decodeValueDyn
        (encodeValue (OdooValue.vArr [OdooValue.vInt 201, OdooValue.vStr (S ("Acme"))])
          (S ("many2one"))) (S ("many2one")) = OdooValue.vStr (S ("201")) from rfl] at h
    exact OdooValue.noConfusion h

/-- C3 (amended): decoding the encoding recovers the value for the scalar
representatives the codecs can faithfully carry.  Numeric codec: booleans,
integers, floats that are exact decimals with at most two fraction digits
(denominator dividing one hundred; other floats are rounded by `toFixed(2)`),
and nonempty trim-invariant text of every string-typed field (the empty
string is mapped to null by `formatValue`, forcing segment omission, rather
than round-tripping).  Dynamic protocol: booleans, integers, and text
containing no backslash immediately followed by backslash, star or caret
(the encoder escapes only pipes, so the spec's four-pattern unescape strips
such pairs); relation values are encoded as the id only and cannot round
trip. -/
theorem C3_roundtrip_amended :
    (∀ b : Bool, numericRoundTrips (.vBool b) (S ("boolean"))) ∧
    (∀ n : Int, numericRoundTrips (.vInt n) (S ("integer"))) ∧
    (∀ q : ℚ, decFinite q = true → q.den ∣ 100 →
      numericRoundTrips (.vFloat q) (S ("float"))) ∧
    (∀ s : Str, jsTrim s = s → s ≠ [] →
      numericRoundTrips (.vStr s) (S ("char")) ∧
      numericRoundTrips (.vStr s) (S ("text")) ∧
      numericRoundTrips (.vStr s) (S ("selection")) ∧
      numericRoundTrips (.vStr s) (S ("date")) ∧
      numericRoundTrips (.vStr s) (S ("datetime"))) ∧
    (∀ b : Bool, dynamicRoundTrips (.vBool b) (S ("boolean"))) ∧
    (∀ n : Int, dynamicRoundTrips (.vInt n) (S ("integer"))) ∧
    (∀ s : Str, hasPair bsC bsC s = false → hasPair bsC '*' s = false →
      hasPair bsC '^' s = false →
      dynamicRoundTrips (.vStr s) (S ("char")) ∧
      dynamicRoundTrips (.vStr s) (S ("text"))) := by
  refine ⟨numericRT_bool, numericRT_int, numericRT_float, ?_, dynamicRT_bool,
    dynamicRT_int, ?_⟩
  · intro s hs hne
    exact ⟨numericRT_string _ s (by decide) (by decide) (by decide) hs hne,
      numericRT_string _ s (by decide) (by decide) (by decide) hs hne,
      numericRT_string _ s (by decide) (by decide) (by decide) hs hne,
      numericRT_string _ s (by decide) (by decide) (by decide) hs hne,
      numericRT_string _ s (by decide) (by decide) (by decide) hs hne⟩
  · intro s p1 p2 p3
    exact ⟨dynamicRT_string _ s (by decide) (by decide) (by decide) (by decide)
        (Or.inl rfl) p1 p2 p3,
      dynamicRT_string _ s (by decide) (by decide) (by decide) (by decide)
        (Or.inr (Or.inl rfl)) p1 p2 p3⟩

/-- C3 witness: concrete round trips through both codecs at representative
values, including a negative integer, a negative two-decimal float, and text
with a pipe. -/
theorem C3_roundtrip_amended_witness :
    numericRoundTrips (.vInt (-7)) (S ("integer")) ∧
    numericRoundTrips (.vFloat (⟨-3, 2, by decide, by decide⟩ : ℚ)) (S ("float")) ∧
    numericRoundTrips (.vStr (S ("Hospital Project"))) (S ("char")) ∧
    dynamicRoundTrips (.vStr (S ("Hospital|Co"))) (S ("char")) := by
  refine ⟨C3_roundtrip_amended.2.1 (-7),
    C3_roundtrip_amended.2.2.1 _ (by decide) (by decide),
    (C3_roundtrip_amended.2.2.2.1 _ (by decide) (by decide)).1,
    (C3_roundtrip_amended.2.2.2.2.2.2 _ (by decide) (by decide) (by decide)).1⟩

-- ==========================================================================
-- Lemmas about encodeRecordParts and splitOnChar
-- ==========================================================================

theorem encodeRecordParts_eq_map (record : Str → OdooValue)
    (m : List (Str × FieldInfo)) :
    encodeRecordParts record m = m.map (fun e =>
      e.2.codePrefix ++ '*' :: encodeValue (record e.1) e.2.field_type) := by
  induction m with
  | nil => rfl
  | cons e rest ih => simp [encodeRecordParts, ih]

theorem encodeRecordParts_length (record : Str → OdooValue)
    (m : List (Str × FieldInfo)) :
    (encodeRecordParts record m).length = m.length := by
  rw [encodeRecordParts_eq_map, List.length_map]

theorem splitOnChar_no_d {d : Char} {s : Str} (h : d ∉ s) :
    splitOnChar d s = [s] := by
  induction s with
  | nil => rfl
  | cons c cs ih =>
    have hcd : ¬c = d := fun hc => h (hc ▸ List.mem_cons_self c cs)
    have hrec := ih (fun hm => h (List.mem_cons_of_mem c hm))
    simp [splitOnChar, hcd, hrec]

theorem splitOnChar_append {d : Char} {x : Str} (t : Str) (h : d ∉ x) :
    splitOnChar d (x ++ d :: t) = x :: splitOnChar d t := by
  induction x with
  | nil => simp [splitOnChar]
  | cons c cs ih =>
    have hcd : ¬c = d := fun hc => h (hc ▸ List.mem_cons_self c cs)
    have hrec := ih (fun hm => h (List.mem_cons_of_mem c hm))
    rw [List.cons_append]
    show (if c = d then [] :: splitOnChar d (cs ++ d :: t)
      else match splitOnChar d (cs ++ d :: t) with
        | [] => [[c]]
        | a :: rest => (c :: a) :: rest) = (c :: cs) :: splitOnChar d t
    rw [if_neg hcd, hrec]

theorem splitOnChar_joinPipe (parts : List Str) (h : parts ≠ [])
    (hnp : ∀ p ∈ parts, '|' ∉ p) :
    splitOnChar '|' (joinPipe parts) = parts := by
  induction parts with
  | nil => exact absurd rfl h
  | cons x rest ih =>
    match rest with
    | [] =>
      exact splitOnChar_no_d (hnp x (List.mem_cons_self x []))
    | y :: rest2 =>
      have hj : joinPipe (x :: y :: rest2) = x ++ '|' :: joinPipe (y :: rest2) := rfl
      rw [hj, splitOnChar_append _ (hnp x (List.mem_cons_self _ _)),
        ih (List.cons_ne_nil _ _) (fun p hp => hnp p (List.mem_cons_of_mem x hp))]

theorem encodeValue_unset {ft : Str} (h : ft ≠ S ("boolean")) {v : OdooValue}
    (hv : isNullOrFalse v = true) : encodeValue v ft = [] := by
  unfold encodeValue
  rw [if_neg h, if_pos hv]

/-- C9: the dynamic `encodeRecord` is total on the modelled inputs and its
output is exactly one segment per encoding-map entry, in map order, each of
the form prefix, star, encoded value, joined by pipes: the segment count
equals the map size, the concatenation splits back into precisely those
segments whenever no encoded value contains a pipe, and a mapped field whose
value is missing, null or false (with a non-boolean type) still contributes
the segment prefix-star with an empty value rather than being omitted. -/
theorem C9_encodeRecord_invariant :
    ∀ (record : Str → OdooValue) (m : List (Str × FieldInfo)),
      encodeRecord record m =
        joinPipe (m.map (fun e =>
          e.2.codePrefix ++ '*' :: encodeValue (record e.1) e.2.field_type)) ∧
      (encodeRecordParts record m).length = m.length ∧
      (m ≠ [] → (∀ p ∈ encodeRecordParts record m, '|' ∉ p) →
        splitOnChar '|' (encodeRecord record m) = encodeRecordParts record m) ∧
      (∀ e : Str × FieldInfo, e ∈ m → e.2.field_type ≠ S ("boolean") →
        isNullOrFalse (record e.1) = true →
        (e.2.codePrefix ++ ['*']) ∈ encodeRecordParts record m) := by
  intro record m
  refine ⟨by rw [encodeRecord, encodeRecordParts_eq_map],
    encodeRecordParts_length record m, ?_, ?_⟩
  · intro hne hnp
    have hlen : encodeRecordParts record m ≠ [] := by
      intro hnil
      have := encodeRecordParts_length record m
      rw [hnil] at this
      exact hne (List.length_eq_zero.mp this.symm)
    exact splitOnChar_joinPipe _ hlen hnp
  · intro e he hft hval
    rw [encodeRecordParts_eq_map]
    have hmem := List.mem_map_of_mem
      (fun e : Str × FieldInfo =>
        e.2.codePrefix ++ '*' :: encodeValue (record e.1) e.2.field_type) he
    have hmem2 : e.2.codePrefix ++ '*' :: encodeValue (record e.1) e.2.field_type ∈
        List.map (fun e : Str × FieldInfo =>
          e.2.codePrefix ++ '*' :: encodeValue (record e.1) e.2.field_type) m := hmem
    rwa [encodeValue_unset hft hval] at hmem2

/-- C9 witness: a one-field map whose value is null still yields the
prefix-star segment, and the pipe-joined output splits back to it. -/
theorem C9_encodeRecord_invariant_witness :
    splitOnChar '|' (encodeRecord (fun _ => OdooValue.vNull)
        [(S ("partner_id"), ⟨S ("7^12"), S ("many2one"), true, some (S ("res.partner"))⟩),
         (S ("name"), ⟨S ("7^1"), S ("char"), false, none⟩)]) =
      encodeRecordParts (fun _ => OdooValue.vNull)
        [(S ("partner_id"), ⟨S ("7^12"), S ("many2one"), true, some (S ("res.partner"))⟩),
         (S ("name"), ⟨S ("7^1"), S ("char"), false, none⟩)] ∧
    (S ("7^12") ++ ['*']) ∈ encodeRecordParts (fun _ => OdooValue.vNull)
        [(S ("partner_id"), ⟨S ("7^12"), S ("many2one"), true, some (S ("res.partner"))⟩),
         (S ("name"), ⟨S ("7^1"), S ("char"), false, none⟩)] := by
  refine ⟨(C9_encodeRecord_invariant (fun _ => OdooValue.vNull) _).2.2.1
      (by decide) (by decide),
    (C9_encodeRecord_invariant (fun _ => OdooValue.vNull) _).2.2.2
      (S ("partner_id"), ⟨S ("7^12"), S ("many2one"), true, some (S ("res.partner"))⟩)
      (by decide) (by decide) (by decide)⟩

/-- C4 counterexample: the omission rule does not hold for either encoder as
claimed.  Numeric protocol: a lead whose boolean `active` column is the
boolean false produces only the name segment — no segment of the active
coordinate appears at all (in either the claimed uppercase or the codec's
lowercase spelling), because `addField` skips every false value before the
boolean formatting can run.  Dynamic protocol: a record whose only mapped
field (a non-boolean char) is null still emits the segment prefix-star with
an empty value instead of omitting the field's segment entirely. -/
theorem C4_counterexample :
    encodeOpportunityN lookupCE leadCE = S ("1^1*A") ∧
    (∀ part ∈ splitOnChar '|' (encodeOpportunityN lookupCE leadCE),
      part ≠ S ("1^40*FALSE") ∧ part ≠ S ("1^40*false")) ∧
    encodeRecord (fun _ => OdooValue.vNull)
        [(S ("name"), ⟨S ("7^7"), S ("char"), false, none⟩)] = S ("7^7*") ∧
    encodeRecordParts (fun _ => OdooValue.vNull)
        [(S ("name"), ⟨S ("7^7"), S ("char"), false, none⟩)] = [S ("7^7*")] := by
  refine ⟨rfl, ?_, rfl, rfl⟩
  intro part hp
  rw [show encodeOpportunityN lookupCE leadCE = S ("1^1*A") from rfl] at hp
  rw [show splitOnChar '|' (S ("1^1*A")) = [S ("1^1*A")] from rfl] at hp
  rw [List.mem_singleton.mp hp]
  exact ⟨by decide, by decide⟩

/-- C4 (amended): what each encoder actually does with unset and false
values.  Numeric protocol: `addField` skips null, undefined, the boolean
false and the empty string uniformly — in particular a lead with boolean
false `active` encodes identically to one with `active` null, so a false
boolean column is omitted, not rendered as a FALSE segment.  Dynamic
protocol: a boolean field encodes to the literal FALSE by strict identity to
true, a non-boolean field with a null or false value encodes to the empty
string, and the record encoder still emits one segment per map entry, never
omitting any field. -/
theorem C4_omission_amended :
    (∀ lookup lead, lead.active = OdooValue.vBool false →
      encodeOpportunityN lookup lead =
        encodeOpportunityN lookup { lead with active := OdooValue.vNull }) ∧
    (∀ lookup t c v, isAddSkip v = true → addFieldN lookup t c v = none) ∧
    encodeValue (OdooValue.vBool false) (S ("boolean")) = S ("FALSE") ∧
    (∀ ft, ft ≠ S ("boolean") →
      encodeValue OdooValue.vNull ft = [] ∧
      encodeValue (OdooValue.vBool false) ft = []) ∧
    (∀ record m, (encodeRecordParts record m).length = m.length) := by
  refine ⟨?_, ?_, rfl, ?_, encodeRecordParts_length⟩
  · intro lookup lead h
    obtain ⟨f1, f2, f3, f4, f5, f6, f7, f8, f9, f10, f11, f12, f13, f14, f15,
      f16, f17, f18, f19, f20⟩ := lead
    have h10 : f10 = OdooValue.vBool false := h
    rw [h10]
    rfl
  · intro lookup t c v h
    rw [addFieldN, if_pos h]
  · intro ft h
    exact ⟨encodeValue_unset h rfl, encodeValue_unset h rfl⟩

/-- C4 witness: the concrete lead with false `active` encodes the same as
with null `active`; a skipped null value; the empty dynamic encoding of a
null char value. -/
theorem C4_omission_amended_witness :
    encodeOpportunityN lookupCE leadCE =
      encodeOpportunityN lookupCE { leadCE with active := OdooValue.vNull } ∧
    addFieldN lookupCE 1 30 OdooValue.vNull = none ∧
    encodeValue OdooValue.vNull (S ("char")) = [] := by
  refine ⟨C4_omission_amended.1 lookupCE leadCE rfl,
    C4_omission_amended.2.1 lookupCE 1 30 OdooValue.vNull rfl,
    (C4_omission_amended.2.2.2.1 (S ("char")) (by decide)).1⟩

-- ==========================================================================
-- Lemmas about objInsert / objLookup and the encoding-map builder
-- ==========================================================================

theorem objLookup_insert_self {α : Type} (k : Str) (v : α) :
    ∀ m, objLookup k (objInsert k v m) = some v := by
  intro m
  induction m with
  | nil =>
    show (if k = k then some v else objLookup k ([] : List (Str × α))) = some v
    rw [if_pos rfl]
  | cons e rest ih =>
    obtain ⟨k3, v3⟩ := e
    simp only [objInsert]
    by_cases h3 : k3 = k
    · rw [if_pos h3]
      show (if k = k then some v else objLookup k rest) = some v
      rw [if_pos rfl]
    · rw [if_neg h3]
      show (if k3 = k then some v3 else objLookup k (objInsert k v rest)) = some v
      rw [if_neg h3, ih]

theorem objLookup_insert_ne {α : Type} {kp k : Str} (h : kp ≠ k) (v : α) :
    ∀ m, objLookup k (objInsert kp v m) = objLookup k m := by
  intro m
  induction m with
  | nil =>
    show (if kp = k then some v else objLookup k ([] : List (Str × α))) =
      objLookup k ([] : List (Str × α))
    rw [if_neg h]
  | cons e rest ih =>
    obtain ⟨k3, v3⟩ := e
    simp only [objInsert]
    by_cases h3 : k3 = kp
    · rw [if_pos h3]
      subst h3
      show (if k3 = k then some v else objLookup k rest) =
        (if k3 = k then some v3 else objLookup k rest)
      rw [if_neg h, if_neg h]
    · rw [if_neg h3]
      show (if k3 = k then some v3 else objLookup k (objInsert kp v rest)) =
        (if k3 = k then some v3 else objLookup k rest)
      by_cases h4 : k3 = k
      · rw [if_pos h4, if_pos h4]
      · rw [if_neg h4, if_neg h4, ih]

theorem buildFieldStep_eq (m : List (Str × FieldInfo)) (f : OdooSchemaRow) :
    buildFieldStep m f = objInsert f.field_name (fieldInfoOfRow f) m := by
  unfold buildFieldStep fieldInfoOfRow
  by_cases h1 : f.field_type = S ("many2one")
  · rw [if_pos h1, if_pos h1]
  · rw [if_neg h1, if_neg h1]
    by_cases h2 : f.field_type = S ("many2many") ∨ f.field_type = S ("one2many")
    · rw [if_pos h2, if_pos h2]
    · rw [if_neg h2, if_neg h2]

theorem foldl_buildFieldStep_skip (k : Str) :
    ∀ (rows : List OdooSchemaRow) (m : List (Str × FieldInfo)),
      k ∉ rows.map OdooSchemaRow.field_name →
      objLookup k (rows.foldl buildFieldStep m) = objLookup k m := by
  intro rows
  induction rows with
  | nil => intro m _; rfl
  | cons r rest ih =>
    intro m h
    have hk : r.field_name ≠ k := fun he =>
      h (by rw [List.map_cons, ← he]; exact List.mem_cons_self _ _)
    have hrest : k ∉ rest.map OdooSchemaRow.field_name := fun hm =>
      h (by rw [List.map_cons]; exact List.mem_cons_of_mem _ hm)
    rw [List.foldl_cons, ih _ hrest, buildFieldStep_eq, objLookup_insert_ne hk]

theorem foldl_buildFieldStep_lookup :
    ∀ (rows : List OdooSchemaRow) (m : List (Str × FieldInfo))
      (f : OdooSchemaRow), f ∈ rows →
      (rows.map OdooSchemaRow.field_name).Nodup →
      objLookup f.field_name (rows.foldl buildFieldStep m) =
        some (fieldInfoOfRow f) := by
  intro rows
  induction rows with
  | nil => intro m f hf _; exact absurd hf (List.not_mem_nil f)
  | cons r rest ih =>
    intro m f hf hnd
    rw [List.map_cons, List.nodup_cons] at hnd
    rw [List.foldl_cons]
    rcases List.mem_cons.mp hf with he | hm
    · subst he
      rw [foldl_buildFieldStep_skip _ _ _ hnd.1, buildFieldStep_eq,
        objLookup_insert_self]
    · exact ih _ f hm hnd.2

theorem append_caret_inj :
    ∀ {dl : Char} {s1 s2 t1 t2 : Str}, dl ∉ s1 → dl ∉ s2 →
      s1 ++ dl :: t1 = s2 ++ dl :: t2 → s1 = s2 ∧ t1 = t2 := by
  intro dl s1
  induction s1 with
  | nil =>
    intro s2 t1 t2 _ h2 he
    cases s2 with
    | nil =>
      refine ⟨rfl, ?_⟩
      simpa using he
    | cons c s2a =>
      exfalso
      simp only [List.nil_append, List.cons_append] at he
      have hc : c = dl := (List.cons.inj he).1.symm
      exact h2 (hc ▸ List.mem_cons_self c s2a)
  | cons c s1a ih =>
    intro s2 t1 t2 h1 h2 he
    cases s2 with
    | nil =>
      exfalso
      simp only [List.cons_append, List.nil_append] at he
      have hc : c = dl := (List.cons.inj he).1
      exact h1 (hc ▸ List.mem_cons_self c s1a)
    | cons d s2a =>
      simp only [List.cons_append] at he
      obtain ⟨hcd, hrest⟩ := List.cons.inj he
      have h1a : dl ∉ s1a := fun hm => h1 (List.mem_cons_of_mem c hm)
      have h2a : dl ∉ s2a := fun hm => h2 (List.mem_cons_of_mem d hm)
      obtain ⟨hs, ht⟩ := ih h1a h2a hrest
      exact ⟨by rw [hcd, hs], ht⟩

theorem caret_not_in_natRepr (n : Nat) : '^' ∉ natRepr n := by
  intro hm
  have hd := natRepr_digits n '^' hm
  exact absurd rfl (digit_not_special hd).2.2.2.2.2.2.2

/-- C1: under distinct field names, the encoding-map builder assigns every
many2one row the target model's identity coordinate
primary-model-id caret primary-field-id (marked foreign key), every
many2many and one2many row the owning model's own coordinate (marked
foreign key), and every other row the owning model's own coordinate (not a
foreign key); a many2one prefix whose target model id differs from the
owner's never equals the owner's own coordinate; two models whose many2one
rows reference the same target coordinate receive equal prefixes, both the
target's identity coordinate; and that shared prefix is exactly the prefix
the target model's own id row receives in the target's own map. -/
theorem C1_fk_prefix :
    (∀ (rows : List OdooSchemaRow) (f : OdooSchemaRow), f ∈ rows →
      (rows.map OdooSchemaRow.field_name).Nodup →
      f.field_type = S ("many2one") →
      objLookup f.field_name (buildFieldEncodingMap rows) =
        some ⟨f.primary_model_id ++ '^' :: f.primary_field_id, f.field_type,
          true, some (replaceFirst (S (".id")) [] f.primary_data_location)⟩) ∧
    (∀ (rows : List OdooSchemaRow) (f : OdooSchemaRow), f ∈ rows →
      (rows.map OdooSchemaRow.field_name).Nodup →
      f.field_type = S ("many2many") ∨ f.field_type = S ("one2many") →
      objLookup f.field_name (buildFieldEncodingMap rows) =
        some ⟨natRepr f.model_id ++ '^' :: natRepr f.field_id, f.field_type,
          true, some (replaceFirst (S (".id")) [] f.primary_data_location)⟩) ∧
    (∀ (rows : List OdooSchemaRow) (f : OdooSchemaRow), f ∈ rows →
      (rows.map OdooSchemaRow.field_name).Nodup →
      f.field_type ≠ S ("many2one") →
      ¬(f.field_type = S ("many2many") ∨ f.field_type = S ("one2many")) →
      objLookup f.field_name (buildFieldEncodingMap rows) =
        some ⟨natRepr f.model_id ++ '^' :: natRepr f.field_id, f.field_type,
          false, none⟩) ∧
    (∀ (rows : List OdooSchemaRow) (f : OdooSchemaRow), f ∈ rows →
      (rows.map OdooSchemaRow.field_name).Nodup →
      f.field_type = S ("many2one") →
      f.primary_model_id ≠ natRepr f.model_id → '^' ∉ f.primary_model_id →
      ∀ i, objLookup f.field_name (buildFieldEncodingMap rows) = some i →
        i.codePrefix ≠ natRepr f.model_id ++ '^' :: natRepr f.field_id) ∧
    (∀ (rows1 rows2 : List OdooSchemaRow) (f1 f2 : OdooSchemaRow),
      f1 ∈ rows1 → f2 ∈ rows2 →
      (rows1.map OdooSchemaRow.field_name).Nodup →
      (rows2.map OdooSchemaRow.field_name).Nodup →
      f1.field_type = S ("many2one") → f2.field_type = S ("many2one") →
      f1.primary_model_id = f2.primary_model_id →
      f1.primary_field_id = f2.primary_field_id →
      ∃ i1 i2,
        objLookup f1.field_name (buildFieldEncodingMap rows1) = some i1 ∧
        objLookup f2.field_name (buildFieldEncodingMap rows2) = some i2 ∧
        i1.codePrefix = i2.codePrefix ∧
        i1.codePrefix = f1.primary_model_id ++ '^' :: f1.primary_field_id) ∧
    (∀ (rows1 rows2 : List OdooSchemaRow) (f g : OdooSchemaRow),
      f ∈ rows1 → g ∈ rows2 →
      (rows1.map OdooSchemaRow.field_name).Nodup →
      (rows2.map OdooSchemaRow.field_name).Nodup →
      f.field_type = S ("many2one") →
      g.field_type ≠ S ("many2one") →
      ¬(g.field_type = S ("many2many") ∨ g.field_type = S ("one2many")) →
      f.primary_model_id = natRepr g.model_id →
      f.primary_field_id = natRepr g.field_id →
      ∃ i j,
        objLookup f.field_name (buildFieldEncodingMap rows1) = some i ∧
        objLookup g.field_name (buildFieldEncodingMap rows2) = some j ∧
        i.codePrefix = j.codePrefix) := by
  have key : ∀ (rows : List OdooSchemaRow) (f : OdooSchemaRow), f ∈ rows →
      (rows.map OdooSchemaRow.field_name).Nodup →
      objLookup f.field_name (buildFieldEncodingMap rows) =
        some (fieldInfoOfRow f) := by
    intro rows f hf hnd
    show objLookup f.field_name (rows.foldl buildFieldStep []) = _
    exact foldl_buildFieldStep_lookup rows [] f hf hnd
  refine ⟨?_, ?_, ?_, ?_, ?_, ?_⟩
  · intro rows f hf hnd ht
    rw [key rows f hf hnd]
    unfold fieldInfoOfRow
    rw [if_pos ht]
  · intro rows f hf hnd ht
    have hne : f.field_type ≠ S ("many2one") := by
      rcases ht with h | h <;> rw [h] <;> decide
    rw [key rows f hf hnd]
    unfold fieldInfoOfRow
    rw [if_neg hne, if_pos ht]
  · intro rows f hf hnd h1 h2
    rw [key rows f hf hnd]
    unfold fieldInfoOfRow
    rw [if_neg h1, if_neg h2]
  · intro rows f hf hnd ht hpm hcar i hi hpref
    rw [key rows f hf hnd] at hi
    have hie : i = fieldInfoOfRow f := (Option.some.inj hi).symm
    subst hie
    unfold fieldInfoOfRow at hpref
    rw [if_pos ht] at hpref
    have hsplit := append_caret_inj hcar (caret_not_in_natRepr f.model_id) hpref
    exact hpm hsplit.1
  · intro rows1 rows2 f1 f2 hm1 hm2 hnd1 hnd2 ht1 ht2 hpm hpf
    refine ⟨fieldInfoOfRow f1, fieldInfoOfRow f2, key _ _ hm1 hnd1,
      key _ _ hm2 hnd2, ?_, ?_⟩
    · unfold fieldInfoOfRow
      rw [if_pos ht1, if_pos ht2]
      show f1.primary_model_id ++ '^' :: f1.primary_field_id =
        f2.primary_model_id ++ '^' :: f2.primary_field_id
      rw [hpm, hpf]
    · unfold fieldInfoOfRow
      rw [if_pos ht1]
  · intro rows1 rows2 f g hmf hmg hnd1 hnd2 htf hg1 hg2 hpm hpf
    refine ⟨fieldInfoOfRow f, fieldInfoOfRow g, key _ _ hmf hnd1,
      key _ _ hmg hnd2, ?_⟩
    unfold fieldInfoOfRow
    rw [if_pos htf, if_neg hg1, if_neg hg2]
    show f.primary_model_id ++ '^' :: f.primary_field_id =
      natRepr g.model_id ++ '^' :: natRepr g.field_id
    rw [hpm, hpf]

/-- C1 witness: two concrete models each holding a many2one row that targets
the partner model receive the same prefix, the partner identity coordinate
two-hundred-one caret one; and that prefix equals the one the partner
model's own id row gets in its own map. -/
theorem C1_fk_prefix_witness :
    (∃ i1 i2,
      objLookup (S ("partner_id")) (buildFieldEncodingMap [rowPartnerFK]) =
        some i1 ∧
      objLookup (S ("x_architect_id")) (buildFieldEncodingMap [rowArchFK]) =
        some i2 ∧
      i1.codePrefix = i2.codePrefix ∧
      i1.codePrefix = S ("201") ++ '^' :: S ("1")) ∧
    (∃ i j,
      objLookup (S ("partner_id")) (buildFieldEncodingMap [rowPartnerFK]) =
        some i ∧
      objLookup (S ("id")) (buildFieldEncodingMap [rowPartnerId]) = some j ∧
      i.codePrefix = j.codePrefix) := by
  constructor
  · exact C1_fk_prefix.2.2.2.2.1 [rowPartnerFK] [rowArchFK] rowPartnerFK
      rowArchFK (by decide) (by decide) (by decide) (by decide) (by decide)
      (by decide) rfl rfl
  · exact C1_fk_prefix.2.2.2.2.2 [rowPartnerFK] [rowPartnerId] rowPartnerFK
      rowPartnerId (by decide) (by decide) (by decide) (by decide) (by decide)
      (by decide) (by decide) (by decide) (by decide)

theorem parseValueN_char (v : Str) : parseValueN v (S ("char")) =
    OdooValue.vStr v := by
  unfold parseValueN
  rw [if_neg (by decide), if_neg (by decide), if_neg (by decide)]

/-- C5 counterexample: both decoders silently drop segments.  The letter
decode of a one-segment input with no star separator returns no fields at
all; the numeric decode likewise drops a starred segment whose code has no
caret, and one whose coordinates do not parse as numbers — none of these is
emitted tagged unknown. -/
theorem C5_counterexample :
    splitOnChar '|' (S ("status")) = [S ("status")] ∧
    decodeL (fun _ => none) (S ("status")) = [] ∧
    splitOnChar '|' (S ("5*foo")) = [S ("5*foo")] ∧
    decodeN (fun _ _ => none) (S ("5*foo")) = [] ∧
    decodeN (fun _ _ => none) (S ("x^y*2")) = [] :=
  ⟨rfl, rfl, rfl, rfl, rfl⟩

/-- C5 (amended): what each decoder actually emits and drops.  Letter
protocol: a segment with no star separator is silently skipped; a starred
segment whose code is not in the schema registry is still emitted, tagged
unknown with char typing and the unescaped value.  Numeric protocol: a
segment with no star, a code with no caret, or a coordinate that does not
parse as a number is silently skipped; a well-formed segment whose
coordinates resolve to no schema entry is still emitted with the table-name
fallback, unknown field and char typing.  Both decoders are total functions
emitting at most one field per pipe-separated segment. -/
theorem C5_decode_amended :
    (∀ (sch : Str → Option (Str × Str × Str)) part,
      splitAtFirst '*' part = none → decodeLPart sch part = none) ∧
    (∀ (sch : Str → Option (Str × Str × Str)) part code raw,
      splitAtFirst '*' part = some (code, raw) → sch code = none →
      decodeLPart sch part =
        some ⟨code, unescapeValueL raw, S ("unknown"), S ("unknown"),
          S ("char"), OdooValue.vStr (unescapeValueL raw)⟩) ∧
    (∀ (sd : Int → Int → Option (Str × Str × Str)) part,
      splitAtFirst '*' part = none → decodeNPart sd part = none) ∧
    (∀ (sd : Int → Int → Option (Str × Str × Str)) part code raw,
      splitAtFirst '*' part = some (code, raw) →
      splitAtFirst '^' code = none → decodeNPart sd part = none) ∧
    (∀ (sd : Int → Int → Option (Str × Str × Str)) part code raw tstr cstr,
      splitAtFirst '*' part = some (code, raw) →
      splitAtFirst '^' code = some (tstr, cstr) →
      parseJsInt tstr = none → decodeNPart sd part = none) ∧
    (∀ (sd : Int → Int → Option (Str × Str × Str)) part code raw tstr cstr
      (tn cn : Int),
      splitAtFirst '*' part = some (code, raw) →
      splitAtFirst '^' code = some (tstr, cstr) →
      parseJsInt tstr = some tn → parseJsInt cstr = some cn →
      sd tn cn = none →
      decodeNPart sd part =
        some ⟨code, tn, cn, unescapeValueN raw,
          (tableMapping tn).getD (S ("unknown")), S ("unknown"), S ("char"),
          OdooValue.vStr (unescapeValueN raw)⟩) ∧
    (∀ (sch : Str → Option (Str × Str × Str)) s,
      (decodeL sch s).length ≤ (splitOnChar '|' s).length) ∧
    (∀ (sd : Int → Int → Option (Str × Str × Str)) s,
      (decodeN sd s).length ≤ (splitOnChar '|' s).length) := by
  refine ⟨?_, ?_, ?_, ?_, ?_, ?_, ?_, ?_⟩
  · intro sch part h
    simp only [decodeLPart, h]
  · intro sch part code raw h1 h2
    simp only [decodeLPart, h1, h2]
  · intro sd part h
    simp only [decodeNPart, h]
  · intro sd part code raw h1 h2
    simp only [decodeNPart, h1, h2]
  · intro sd part code raw tstr cstr h1 h2 h3
    simp only [decodeNPart, h1, h2, h3]
  · intro sd part code raw tstr cstr tn cn h1 h2 h3 h4 h5
    simp only [decodeNPart, h1, h2, h3, h4, h5, Option.map_none',
      Option.getD_none, parseValueN_char]
  · intro sch s
    exact List.length_filterMap_le _ _
  · intro sd s
    exact List.length_filterMap_le _ _

/-- C5 witness: a starred segment with an unregistered letter code is
emitted tagged unknown; a numeric segment at unregistered coordinates
twelve caret thirty-four is emitted with unknown table and field; a segment
with no star is dropped. -/
theorem C5_decode_amended_witness :
    decodeLPart (fun _ => none) (S ("Z9*hi")) =
      some ⟨S ("Z9"), S ("hi"), S ("unknown"), S ("unknown"), S ("char"),
        OdooValue.vStr (S ("hi"))⟩ ∧
    decodeNPart (fun _ _ => none) (S ("12^34*v")) =
      some ⟨S ("12^34"), 12, 34, S ("v"), S ("unknown"), S ("unknown"),
        S ("char"), OdooValue.vStr (S ("v"))⟩ ∧
    decodeLPart (fun _ => none) (S ("nostar")) = none := by
  refine ⟨?_, ?_, ?_⟩
  · exact C5_decode_amended.2.1 (fun _ => none) (S ("Z9*hi")) (S ("Z9"))
      (S ("hi")) (by decide) rfl
  · exact C5_decode_amended.2.2.2.2.2.1 (fun _ _ => none) (S ("12^34*v"))
      (S ("12^34")) (S ("v")) (S ("12")) (S ("34")) 12 34 (by decide)
      (by decide) (by decide) (by decide) rfl
  · exact C5_decode_amended.1 (fun _ => none) (S ("nostar")) (by decide)

-- ==========================================================================
-- Lemmas about the sync-metadata checksum object
-- ==========================================================================

theorem intRepr_inj {a b : Int} (h : intRepr a = intRepr b) : a = b := by
  have h1 := parseJsInt_intRepr a
  rw [h] at h1
  exact (Option.some.inj ((parseJsInt_intRepr b).symm.trans h1)).symm

theorem checksum_foldl_skip (k : Str) :
    ∀ (rows : List (Int × Str)) (m : List (Str × Str)),
      (∀ e ∈ rows, intRepr (Prod.fst e) ≠ k) →
      objLookup k (rows.foldl (fun m e => objInsert (intRepr e.1) e.2 m) m) =
        objLookup k m := by
  intro rows
  induction rows with
  | nil => intro m _; rfl
  | cons r rest ih =>
    intro m h
    rw [List.foldl_cons, ih _ (fun e he => h e (List.mem_cons_of_mem r he)),
      objLookup_insert_ne (h r (List.mem_cons_self r rest))]

theorem checksum_foldl_lookup :
    ∀ (rows : List (Int × Str)) (m : List (Str × Str)) (e : Int × Str),
      e ∈ rows → (rows.map Prod.fst).Nodup →
      objLookup (intRepr e.1)
        (rows.foldl (fun m e => objInsert (intRepr e.1) e.2 m) m) =
        some e.2 := by
  intro rows
  induction rows with
  | nil => intro m e he _; exact absurd he (List.not_mem_nil e)
  | cons r rest ih =>
    intro m e he hnd
    rw [List.map_cons, List.nodup_cons] at hnd
    rw [List.foldl_cons]
    rcases List.mem_cons.mp he with heq | hm
    · subst heq
      have hskip : ∀ e2 ∈ rest, intRepr (Prod.fst e2) ≠ intRepr e.1 := by
        intro e2 he2 hrep
        exact hnd.1 (by
          rw [← intRepr_inj hrep]
          exact List.mem_map_of_mem Prod.fst he2)
      rw [checksum_foldl_skip _ _ _ hskip, objLookup_insert_self]
    · exact ih _ e hm hnd.2

theorem mem_keys_objInsert {α : Type} {k kp : Str} {v : α} :
    ∀ m, k ∈ (objInsert kp v m).map Prod.fst → k = kp ∨ k ∈ m.map Prod.fst := by
  intro m
  induction m with
  | nil =>
    intro h
    simp [objInsert] at h
    exact Or.inl h
  | cons e rest ih =>
    obtain ⟨k3, v3⟩ := e
    intro h
    by_cases h3 : k3 = kp
    · simp only [objInsert, if_pos h3, List.map_cons] at h
      rcases List.mem_cons.mp h with h4 | h4
      · exact Or.inl h4
      · exact Or.inr (by rw [List.map_cons]; exact List.mem_cons_of_mem _ h4)
    · simp only [objInsert, if_neg h3, List.map_cons] at h
      rcases List.mem_cons.mp h with h4 | h4
      · exact Or.inr (by rw [List.map_cons]; exact h4 ▸ List.mem_cons_self _ _)
      · rcases ih h4 with h5 | h5
        · exact Or.inl h5
        · exact Or.inr (by rw [List.map_cons]; exact List.mem_cons_of_mem _ h5)

theorem checksum_keys_sub :
    ∀ (rows : List (Int × Str)) (m : List (Str × Str)) (k : Str),
      k ∈ (rows.foldl (fun m e => objInsert (intRepr e.1) e.2 m) m).map
        Prod.fst →
      k ∈ m.map Prod.fst ∨ ∃ e ∈ rows, k = intRepr (Prod.fst e) := by
  intro rows
  induction rows with
  | nil => intro m k h; exact Or.inl h
  | cons r rest ih =>
    intro m k h
    rw [List.foldl_cons] at h
    rcases ih _ k h with h1 | h1
    · rcases mem_keys_objInsert _ h1 with h2 | h2
      · exact Or.inr ⟨r, List.mem_cons_self r rest, h2⟩
      · exact Or.inl h2
    · obtain ⟨e, he, hk⟩ := h1
      exact Or.inr ⟨e, List.mem_cons_of_mem r he, hk⟩

theorem jsonEscape_id {s : Str} (h1 : bsC ∉ s) (h2 : '\x22' ∉ s) :
    jsonEscape s = s := by
  induction s with
  | nil => rfl
  | cons c cs ih =>
    have hc1 : c ≠ bsC := fun he => h1 (he ▸ List.mem_cons_self c cs)
    have hc2 : c ≠ '\x22' := fun he => h2 (he ▸ List.mem_cons_self c cs)
    show jsonEscChar c ++ jsonEscape cs = c :: cs
    rw [ih (fun hm => h1 (List.mem_cons_of_mem c hm))
        (fun hm => h2 (List.mem_cons_of_mem c hm))]
    unfold jsonEscChar
    rw [if_neg hc1, if_neg hc2]
    rfl

/-- C6 counterexample: running the diff twice in a row indeed classifies
nothing as changed, but the persisted file is not byte-identical: the
metadata object stamps the save time, so two runs at distinct instants
serialize to different bytes. -/
theorem C6_counterexample :
    detectChanges (some (createSyncMetadata (S ("2026-01-01T00:00:00.000Z"))
        (S ("d41d8cd9")) [(12, S ("aa")), (7, S ("bb"))]))
      [(12, S ("aa")), (7, S ("bb"))] = ⟨[], [], []⟩ ∧
    jsonOfMetadata (createSyncMetadata (S ("2026-01-01T00:00:00.000Z"))
        (S ("d41d8cd9")) [(12, S ("aa")), (7, S ("bb"))]) ≠
      jsonOfMetadata (createSyncMetadata (S ("2026-01-01T00:00:01.000Z"))
        (S ("d41d8cd9")) [(12, S ("aa")), (7, S ("bb"))]) :=
  ⟨by decide, by decide⟩

/-- C6 (amended): on a first run every current field is classified added
and none modified or deleted; feeding the metadata created from a checksum
map (with distinct field ids) back together with that same map classifies
added, modified and deleted all empty; the two runs' metadata objects agree
except in the lastSync timestamp; and the persisted bytes determine that
timestamp, so the files are byte-identical exactly when the two save
instants render identically. -/
theorem C6_diff_amended :
    (∀ cur : List (Int × Str),
      detectChanges none cur = ⟨cur.map Prod.fst, [], []⟩) ∧
    (∀ (cur : List (Int × Str)) (now hash : Str), (cur.map Prod.fst).Nodup →
      detectChanges (some (createSyncMetadata now hash cur)) cur =
        ⟨[], [], []⟩) ∧
    (∀ (cur : List (Int × Str)) (now1 now2 hash : Str),
      createSyncMetadata now2 hash cur =
        { createSyncMetadata now1 hash cur with lastSync := now2 }) ∧
    (∀ (now1 now2 hash1 hash2 : Str) (cur1 cur2 : List (Int × Str)),
      bsC ∉ now1 → '\x22' ∉ now1 → bsC ∉ now2 → '\x22' ∉ now2 →
      jsonOfMetadata (createSyncMetadata now1 hash1 cur1) =
        jsonOfMetadata (createSyncMetadata now2 hash2 cur2) →
      now1 = now2) := by
  refine ⟨fun cur => rfl, ?_, fun cur now1 now2 hash => rfl, ?_⟩
  · intro cur now hash hnd
    have hfc : (createSyncMetadata now hash cur).fieldChecksums =
        cur.foldl (fun m e => objInsert (intRepr e.1) e.2 m) [] := rfl
    have hlook : ∀ e ∈ cur, objLookup (intRepr (Prod.fst e))
        (createSyncMetadata now hash cur).fieldChecksums =
        some (Prod.snd e) := by
      intro e he
      rw [hfc]
      exact checksum_foldl_lookup cur [] e he hnd
    have h1 : cur.filter (fun e => (objLookup (intRepr e.1)
        (createSyncMetadata now hash cur).fieldChecksums).isNone) = [] := by
      rw [List.filter_eq_nil]
      intro e he
      rw [hlook e he]
      simp
    have h2 : cur.filter (fun e =>
        match objLookup (intRepr e.1)
          (createSyncMetadata now hash cur).fieldChecksums with
        | some c => decide (c ≠ e.2)
        | none => false) = [] := by
      rw [List.filter_eq_nil]
      intro e he
      rw [hlook e he]
      simp
    have h3 : ((createSyncMetadata now hash cur).fieldChecksums.map
        Prod.fst).filterMap (fun k =>
          match parseJsInt k with
          | some n => if cur.any (fun e => e.1 = n) then none
            else some (some n)
          | none => some none) = [] := by
      rw [List.filterMap_eq_nil]
      intro k hk
      rcases checksum_keys_sub cur [] k (hfc ▸ hk) with h | h
      · simp at h
      · obtain ⟨e, he, hke⟩ := h
        subst hke
        have hany : cur.any (fun x => decide (x.1 = e.1)) = true := by
          rw [List.any_eq_true]
          exact ⟨e, he, by simp⟩
        simp only [parseJsInt_intRepr, hany]
        rfl
    show (⟨(cur.filter (fun e => (objLookup (intRepr e.1)
        (createSyncMetadata now hash cur).fieldChecksums).isNone)).map
          Prod.fst,
      (cur.filter (fun e =>
        match objLookup (intRepr e.1)
          (createSyncMetadata now hash cur).fieldChecksums with
        | some c => decide (c ≠ e.2)
        | none => false)).map Prod.fst,
      ((createSyncMetadata now hash cur).fieldChecksums.map
        Prod.fst).filterMap (fun k =>
          match parseJsInt k with
          | some n => if cur.any (fun e => e.1 = n) then none
            else some (some n)
          | none => some none)⟩ : ChangeSet) = ⟨[], [], []⟩
    rw [h1, h2, h3]
    rfl
  · intro now1 now2 hash1 hash2 cur1 cur2 hb1 hq1 hb2 hq2 he
    simp only [jsonOfMetadata, createSyncMetadata, List.append_assoc] at he
    have he3 := List.append_cancel_left he
    simp only [jsonQuote, jsonEscape_id hb1 hq1, jsonEscape_id hb2 hq2,
      List.cons_append, List.append_assoc, List.singleton_append] at he3
    have he4 := (List.cons.inj he3).2
    exact (append_caret_inj hq1 hq2 he4).1

/-- C6 witness: a concrete two-field second run classifies nothing as
added, modified or deleted, and equal serialized bytes force equal
timestamps at a concrete timestamp. -/
theorem C6_diff_amended_witness :
    detectChanges (some (createSyncMetadata (S ("2026-02-02T09:30:00.000Z"))
        (S ("ff00")) [(3, S ("x")), (4, S ("y"))]))
      [(3, S ("x")), (4, S ("y"))] = ⟨[], [], []⟩ ∧
    S ("2026-02-02T09:30:00.000Z") = S ("2026-02-02T09:30:00.000Z") :=
  ⟨C6_diff_amended.2.1 [(3, S ("x")), (4, S ("y"))]
      (S ("2026-02-02T09:30:00.000Z")) (S ("ff00")) (by decide),
   C6_diff_amended.2.2.2 (S ("2026-02-02T09:30:00.000Z"))
      (S ("2026-02-02T09:30:00.000Z")) (S ("ff00")) (S ("ff00"))
      [(3, S ("x"))] [(3, S ("x"))] (by decide) (by decide) (by decide)
      (by decide) rfl⟩

/-- C8 counterexample: the abort path does not list every missing field
name.  With twenty-one fetched field names absent from the schema,
validation fails and the sync aborts, but the twenty-first missing name does
not appear anywhere in the returned error output — the error array keeps
only the first twenty names plus a count summary. -/
theorem C8_counterexample :
    (validateSchemaDataAlignment fields21 []).valid = false ∧
    S ("f21") ∈ (validateSchemaDataAlignment fields21 []).missing_in_schema ∧
    syncModelDataGate fields21 [] ≠ none ∧
    S ("f21") ∉ (syncModelDataGate fields21 []).getD [] :=
  ⟨by decide, by decide, by decide, by decide⟩

/-- C8 (amended): validation is exact — it passes exactly when no fetched
field name is missing a schema row, and a name is reported missing exactly
when it was fetched and matches no schema row's field name; on failure the
sync aborts (fail-closed) with an error array containing each of the first
twenty nonempty missing names (later names are summarised by a count only),
and on success it proceeds to encoding. -/
theorem C8_validation_amended :
    (∀ (odooFields : List Str) (schemaFields : List OdooSchemaRow),
      (validateSchemaDataAlignment odooFields schemaFields).valid = true ↔
      (validateSchemaDataAlignment odooFields schemaFields).missing_in_schema
        = []) ∧
    (∀ (odooFields : List Str) (schemaFields : List OdooSchemaRow) (f : Str),
      f ∈ (validateSchemaDataAlignment odooFields
          schemaFields).missing_in_schema ↔
      f ∈ odooFields ∧ ∀ r ∈ schemaFields, r.field_name ≠ f) ∧
    (∀ (odooFields : List Str) (schemaFields : List OdooSchemaRow),
      (validateSchemaDataAlignment odooFields schemaFields).valid = false →
      syncModelDataGate odooFields schemaFields =
        some (syncValidationErrors (validateSchemaDataAlignment odooFields
          schemaFields).missing_in_schema) ∧
      ∀ f ∈ ((validateSchemaDataAlignment odooFields
          schemaFields).missing_in_schema).take 20, f ≠ [] →
        f ∈ syncValidationErrors (validateSchemaDataAlignment odooFields
          schemaFields).missing_in_schema) ∧
    (∀ (odooFields : List Str) (schemaFields : List OdooSchemaRow),
      (validateSchemaDataAlignment odooFields schemaFields).valid = true →
      syncModelDataGate odooFields schemaFields = none) := by
  refine ⟨?_, ?_, ?_, ?_⟩
  · intro odooFields schemaFields
    show (odooFields.filter _).isEmpty = true ↔ odooFields.filter _ = []
    exact List.isEmpty_iff
  · intro odooFields schemaFields f
    show f ∈ odooFields.filter
      (fun f => !(schemaFields.any (fun r => r.field_name = f))) ↔ _
    rw [List.mem_filter]
    constructor
    · rintro ⟨hmem, hp⟩
      refine ⟨hmem, fun r hr he => ?_⟩
      rw [Bool.not_eq_true', List.any_eq_false] at hp
      exact absurd (decide_eq_true he) (hp r hr)
    · rintro ⟨hmem, hall⟩
      refine ⟨hmem, ?_⟩
      rw [Bool.not_eq_true', List.any_eq_false]
      intro r hr
      exact fun hh => hall r hr (of_decide_eq_true hh)
  · intro odooFields schemaFields hv
    constructor
    · simp [syncModelDataGate, hv]
    · intro f hf hne
      unfold syncValidationErrors
      rw [List.mem_filter]
      refine ⟨?_, decide_eq_true hne⟩
      exact List.mem_append_left _ (List.mem_append_left _
        (List.mem_append_left _ (List.mem_append_right _ hf)))
  · intro odooFields schemaFields hv
    simp [syncModelDataGate, hv]

/-- C8 witness: a single unregistered field aborts the sync with that name
in the error output; a matching sample record proceeds. -/
theorem C8_validation_amended_witness :
    (syncModelDataGate [S ("email")] [] =
      some (syncValidationErrors (validateSchemaDataAlignment [S ("email")]
        []).missing_in_schema) ∧
     ∀ f ∈ ((validateSchemaDataAlignment [S ("email")]
        []).missing_in_schema).take 20, f ≠ [] →
       f ∈ syncValidationErrors (validateSchemaDataAlignment [S ("email")]
        []).missing_in_schema) ∧
    syncModelDataGate [S ("id")] [rowPartnerId] = none :=
  ⟨C8_validation_amended.2.2.1 [S ("email")] [] (by decide),
   C8_validation_amended.2.2.2 [S ("id")] [rowPartnerId] (by decide)⟩

/-- C10: with an empty cache and a missing schema data file, `loadSchema`
returns an empty array, leaves the loader state (including the cache)
unchanged, and every subsequent lookup — `getSchemasByModel` for any model
name, `getSchemaByFieldId` for any field id — returns an empty result on the
same unchanged state. -/
theorem C10_missing_file :
    ∀ st : LoaderState, st.schemaCache = none → st.fileExists = false →
      loadSchema st = ([], st) ∧
      (∀ modelName, getSchemasByModel modelName st = ([], st)) ∧
      (∀ fieldId, getSchemaByFieldId fieldId st = (none, st)) := by
  intro st h1 h2
  obtain ⟨c, fe, fc⟩ := st
  have h1a : c = none := h1
  have h2a : fe = false := h2
  subst h1a
  subst h2a
  exact ⟨rfl, fun _ => rfl, fun _ => rfl⟩

/-- C10 witness: a concrete empty-cache, missing-file state yields empty
results from the loader and both lookups. -/
theorem C10_missing_file_witness :
    loadSchema ⟨none, false, []⟩ = ([], ⟨none, false, []⟩) ∧
    getSchemasByModel (S ("crm.lead")) ⟨none, false, []⟩ =
      ([], ⟨none, false, []⟩) ∧
    getSchemaByFieldId 42 ⟨none, false, []⟩ = (none, ⟨none, false, []⟩) := by
  have h := C10_missing_file ⟨none, false, []⟩ rfl rfl
  exact ⟨h.1, h.2.1 (S ("crm.lead")), h.2.2 42⟩

-- ==========================================================================
-- Lemmas about the retry loop
-- ==========================================================================

theorem filter_eq_single {X : Str} :
    ∀ l : List Str, l.Nodup → X ∈ l → l.filter (fun f => f = X) = [X] := by
  intro l
  induction l with
  | nil => intro _ h; exact absurd h (List.not_mem_nil X)
  | cons a t ih =>
    intro hnd hm
    rw [List.nodup_cons] at hnd
    by_cases ha : a = X
    · subst ha
      rw [List.filter_cons_of_pos (by simp)]
      have ht : t.filter (fun f => f = a) = [] := by
        rw [List.filter_eq_nil]
        intro b hb hba
        exact hnd.1 ((of_decide_eq_true hba) ▸ hb)
      rw [ht]
    · rw [List.filter_cons_of_neg (by simp [ha])]
      rcases List.mem_cons.mp hm with he | hmt
      · exact absurd he.symm ha
      · exact ih hnd.2 hmt

theorem retryLoop_succ {ρ : Type}
    (fetch : List Str → Option Nat → Except FetchErr (List ρ))
    (options : Option Nat) (maxRetries fuel : Nat)
    (currentFields restricted : List Str) (warnings : List WarnTag)
    (retryCount : Nat) :
    retryLoop fetch options maxRetries (fuel + 1) currentFields restricted
      warnings retryCount =
    (if retryCount > maxRetries then .error .unexpectedEnd
     else
      match fetch currentFields options with
      | .ok records => .ok ⟨records, restricted, retryCount, warnings⟩
      | .error (FetchErr.other m) => .error (.orig (.other m))
      | .error FetchErr.singleton =>
        if (testFields fetch currentFields).2.1 = [] then
          .error (.orig FetchErr.singleton)
        else
          retryLoop fetch options maxRetries fuel
            (S ("id") :: (testFields fetch currentFields).1)
            (restricted ++ (testFields fetch currentFields).2.1)
            (warnings ++ WarnTag.singletonTesting ::
              (testFields fetch currentFields).2.2)
            (retryCount + 1)
      | .error (FetchErr.named fs) =>
        if fs = [] then .error (.orig (.named fs))
        else if currentFields.filter (fun f => !(fs.contains f)) = [] then
          .error .allRestricted
        else if retryCount + 1 > maxRetries then .error .maxRetriesExceeded
        else
          retryLoop fetch options maxRetries fuel
            (currentFields.filter (fun f => !(fs.contains f)))
            (restricted ++ fs.filter (fun g => currentFields.contains g))
            (warnings ++ (fs.filter (fun g => currentFields.contains g)).map
              WarnTag.removedField)
            (retryCount + 1)) := rfl

theorem testFields_char {ρ : Type}
    {fetch : List Str → Option Nat → Except FetchErr (List ρ)}
    {recs : List Str → Option Nat → List ρ} {multi : Option Nat → Bool}
    {X : Str}
    (hf : ∀ flds lim, fetch flds lim =
      if multi lim = true ∧ X ∈ flds then Except.error FetchErr.singleton
      else Except.ok (recs flds lim))
    (hm2 : multi (some 2) = true) (hXid : X ≠ S ("id")) :
    ∀ lst : List Str, S ("id") ∉ lst →
      testFields fetch lst =
        (lst.filter (fun f => !(f = X)), lst.filter (fun f => f = X),
         (lst.filter (fun f => f = X)).map WarnTag.fieldCausesSingleton) := by
  intro lst
  induction lst with
  | nil => intro _; rfl
  | cons a t ih =>
    intro h
    have hai : a ≠ S ("id") := fun he => h (he ▸ List.mem_cons_self a t)
    have ht : S ("id") ∉ t := fun hm => h (List.mem_cons_of_mem a hm)
    have hstep : testFields fetch (a :: t) =
        (if a = S ("id") then testFields fetch t
         else
          match fetch [S ("id"), a] (some 2) with
          | .ok _ =>
            (a :: (testFields fetch t).1, (testFields fetch t).2.1,
             (testFields fetch t).2.2)
          | .error FetchErr.singleton =>
            ((testFields fetch t).1, a :: (testFields fetch t).2.1,
             WarnTag.fieldCausesSingleton a :: (testFields fetch t).2.2)
          | .error _ =>
            (a :: (testFields fetch t).1, (testFields fetch t).2.1,
             WarnTag.fieldNonSingleton a :: (testFields fetch t).2.2)) := rfl
    rw [hstep, if_neg hai, hf [S ("id"), a] (some 2), ih ht]
    by_cases haX : a = X
    · subst haX
      rw [if_pos ⟨hm2, List.mem_cons_of_mem _ (List.mem_cons_self a [])⟩]
      rw [List.filter_cons_of_neg (by simp), List.filter_cons_of_pos (by simp)]
      rfl
    · have hnmem : ¬(multi (some 2) = true ∧ X ∈ [S ("id"), a]) := by
        rintro ⟨-, hmem⟩
        rcases List.mem_cons.mp hmem with he | he
        · exact hXid he
        · rcases List.mem_cons.mp he with he2 | he2
          · exact haX he2.symm
          · exact absurd he2 (List.not_mem_nil X)
      rw [if_neg hnmem]
      rw [List.filter_cons_of_pos (by simp [haX]),
        List.filter_cons_of_neg (by simp [haX])]

/-- C7: for a fetch oracle that raises a singleton error naming no field
exactly when a multi-record request includes field X, and succeeds
otherwise, the retry loop on a duplicate-free field list id-then-rest (X
among the candidates) terminates successfully with retry count one — well
within the default budget of five: the singleton branch tests each non-id
candidate individually with id and limit two, classifies exactly X as
restricted, warns only about X, and the final successful fetch uses exactly
the original field list with X removed. -/
theorem C7_singleton_bisection {ρ : Type}
    (fetch : List Str → Option Nat → Except FetchErr (List ρ))
    (recs : List Str → Option Nat → List ρ) (multi : Option Nat → Bool)
    (mainLim : Option Nat) (X : Str) (rest : List Str)
    (hf : ∀ flds lim, fetch flds lim =
      if multi lim = true ∧ X ∈ flds then Except.error FetchErr.singleton
      else Except.ok (recs flds lim))
    (hm2 : multi (some 2) = true) (hml : multi mainLim = true)
    (hXid : X ≠ S ("id")) (hXmem : X ∈ rest) (hid : S ("id") ∉ rest)
    (hnd : rest.Nodup) :
    searchReadWithRetry fetch mainLim (S ("id") :: rest) 5 =
      Except.ok ⟨recs (S ("id") :: rest.filter (fun f => !(f = X))) mainLim,
        [X], 1,
        [WarnTag.singletonTesting, WarnTag.fieldCausesSingleton X]⟩ ∧
    S ("id") :: rest.filter (fun f => !(f = X)) =
      (S ("id") :: rest).filter (fun f => !(f = X)) := by
  have hfilter : (S ("id") :: rest).filter (fun f => !(f = X)) =
      S ("id") :: rest.filter (fun f => !(f = X)) := by
    rw [List.filter_cons_of_pos (by simp [Ne.symm hXid])]
  refine ⟨?_, hfilter.symm⟩
  have hsingle : rest.filter (fun f => f = X) = [X] := filter_eq_single rest hnd hXmem
  have htf0 : testFields fetch (S ("id") :: rest) = testFields fetch rest := by
    have : testFields fetch (S ("id") :: rest) =
        (if S ("id") = S ("id") then testFields fetch rest
         else
          match fetch [S ("id"), S ("id")] (some 2) with
          | .ok _ =>
            (S ("id") :: (testFields fetch rest).1, (testFields fetch rest).2.1,
             (testFields fetch rest).2.2)
          | .error FetchErr.singleton =>
            ((testFields fetch rest).1, S ("id") :: (testFields fetch rest).2.1,
             WarnTag.fieldCausesSingleton (S ("id")) ::
               (testFields fetch rest).2.2)
          | .error _ =>
            (S ("id") :: (testFields fetch rest).1, (testFields fetch rest).2.1,
             WarnTag.fieldNonSingleton (S ("id")) ::
               (testFields fetch rest).2.2)) := rfl
    rw [this, if_pos rfl]
  have hmain1 : fetch (S ("id") :: rest) mainLim =
      Except.error FetchErr.singleton := by
    rw [hf, if_pos ⟨hml, List.mem_cons_of_mem _ hXmem⟩]
  have hmain2 : fetch (S ("id") :: rest.filter (fun f => !(f = X))) mainLim =
      Except.ok (recs (S ("id") :: rest.filter (fun f => !(f = X))) mainLim) := by
    rw [hf, if_neg ?_]
    rintro ⟨-, hmem⟩
    rcases List.mem_cons.mp hmem with he | he
    · exact hXid he
    · have := (List.mem_filter.mp he).2
      simp at this
  show retryLoop fetch mainLim 5 (5 + 2) (S ("id") :: rest) [] [] 0 = _
  rw [show (5 + 2 : Nat) = 6 + 1 from rfl, retryLoop_succ,
    if_neg (by decide : ¬(0 > 5)), hmain1]
  show (if (testFields fetch (S ("id") :: rest)).2.1 = [] then
      Except.error (Thrown.orig FetchErr.singleton)
    else
      retryLoop fetch mainLim 5 6
        (S ("id") :: (testFields fetch (S ("id") :: rest)).1)
        ([] ++ (testFields fetch (S ("id") :: rest)).2.1)
        ([] ++ WarnTag.singletonTesting ::
          (testFields fetch (S ("id") :: rest)).2.2)
        (0 + 1)) = _
  rw [htf0, testFields_char hf hm2 hXid rest hid]
  rw [hsingle]
  rw [if_neg (by simp)]
  rw [show (6 : Nat) = 5 + 1 from rfl, retryLoop_succ,
    if_neg (by decide : ¬(0 + 1 > 5)), hmain2]
  simp

/-- C7 witness: a concrete oracle over three fields, where the email field
triggers singleton errors on multi-record requests (no limit, or limit
two), converges in one retry to the records of id-and-name with exactly
email restricted. -/
theorem C7_singleton_bisection_witness :
    searchReadWithRetry
      (fun flds lim =>
        if (fun l : Option Nat =>
            decide (l = none) || decide (l = some 2)) lim = true ∧
            S ("email") ∈ flds then
          Except.error FetchErr.singleton
        else Except.ok ((fun (fl : List Str) (_ : Option Nat) =>
          [fl.length]) flds lim))
      none [S ("id"), S ("name"), S ("email")] 5 =
      Except.ok ⟨[2], [S ("email")], 1,
        [WarnTag.singletonTesting,
         WarnTag.fieldCausesSingleton (S ("email"))]⟩ := by
  have h := C7_singleton_bisection
    (fun flds lim =>
      if (fun l : Option Nat =>
          decide (l = none) || decide (l = some 2)) lim = true ∧
          S ("email") ∈ flds then
        Except.error FetchErr.singleton
      else Except.ok ((fun (fl : List Str) (_ : Option Nat) =>
        [fl.length]) flds lim))
    (fun (fl : List Str) (_ : Option Nat) => [fl.length])
    (fun l : Option Nat => decide (l = none) || decide (l = some 2))
    none (S ("email")) [S ("name"), S ("email")]
    (fun _ _ => rfl) rfl rfl (by decide) (by decide) (by decide) (by decide)
  exact h.1
